import Mathlib

/-!
Verification development for the huapala bilingual-lyrics parser.

Shallow embedding of the core pipeline of `html_parser_with_validation.py`
(Line Extractor, Section Builder, alignment fix) and of
`scripts/data_validation_system.py` (Validator), over `List Char`.

Modelling conventions, stated once:
* Strings are `List Char` (`Str`), so that structural induction is direct.
* Python `re.sub`/`re.split`/`re.search` on the handful of concrete patterns
  used by the source are embedded as executable left-to-right scanners.
  Each pattern's matcher is deterministic because every quantifier in the
  source patterns is followed by a literal that its character class cannot
  contain (so greedy/lazy backtracking has a unique outcome), except the
  lazy groups `(.*?)`, which are embedded by explicit shortest-split search.
* `str.islower`, `str.strip`, `\s` and `html.unescape` are Unicode-aware in
  Python; they are embedded on the character sets that can occur in any
  input considered in this development (ASCII plus the Latin-1/Latin
  Extended characters and whitespace codepoints listed below).
* Floats: every quality-score value is an integer (start 100.0, integral
  penalties, floor 0.0), all exactly representable, so scores are `Int`.
* Issue timestamps (wall-clock) are not modelled.
-/

/-- Strings as lists of characters. -/
abbrev Str := List Char

/-- Python `\s` / `str.strip()` whitespace (Unicode whitespace set). -/
def pyIsSpace (c : Char) : Bool :=
  c = ' ' || c = '\t' || c = '\n' || c = '\x0d' || c = '\x0b' || c = '\x0c' ||
  c = '\x1c' || c = '\x1d' || c = '\x1e' || c = '\x1f' ||
  c = Char.ofNat 0x85 || c = Char.ofNat 0xa0 || c = Char.ofNat 0x1680 ||
  (Char.ofNat 0x2000 ≤ c && c ≤ Char.ofNat 0x200a) ||
  c = Char.ofNat 0x2028 || c = Char.ofNat 0x2029 ||
  c = Char.ofNat 0x202f || c = Char.ofNat 0x205f || c = Char.ofNat 0x3000

/-- Python `str.islower()` for a single character, on the characters that can
occur here: ASCII lowercase plus the lowercase Hawaiian macron vowels.
(The okina U+02BB is a modifier letter, not cased, so it is not lower.) -/
def pyIsLower (c : Char) : Bool :=
  ('a' ≤ c && c ≤ 'z') ||
  c = Char.ofNat 0x101 || c = Char.ofNat 0x113 || c = Char.ofNat 0x12b ||
  c = Char.ofNat 0x14d || c = Char.ofNat 0x16b

/-- Python `str.strip()`. -/
def pyStrip (s : Str) : Str :=
  ((s.dropWhile pyIsSpace).reverse.dropWhile pyIsSpace).reverse

/-- Python `str.lower()` (ASCII case mapping; the non-ASCII characters
appearing here are already lowercase or uncased). -/
def lowerStr (s : Str) : Str := s.map Char.toLower

/-- Python substring containment (`needle in hay`). -/
def containsSub (needle : Str) : Str → Bool
  | [] => needle.isEmpty
  | c :: rest => needle.isPrefixOf (c :: rest) || containsSub needle rest

/-- Decimal digits of a natural number (for Python f-string interpolation). -/
def natStr (n : Nat) : Str := Nat.toDigits 10 n

/-- Match a literal at the head of the input; return the remainder. -/
def matchLit : Str → Str → Option Str
  | [], s => some s
  | _, [] => none
  | p :: ps, c :: cs => if p = c then matchLit ps cs else none

/-- `\s*` directly followed by a literal that starts with a non-space
character: greedy whitespace skip is the unique outcome. -/
def skipWs (s : Str) : Str := s.dropWhile pyIsSpace

/-! ### Generic `re.sub` embedding

`substFuel` scans left to right; at each position it asks the matcher `try`
for a match anchored there, which returns the replacement text together with
the input remaining after the match.  As in `re.sub`, scanning resumes after
the matched region.  All matchers used here consume at least one character,
so fuel `s.length` is always sufficient; the equation lemmas below are the
only interface used by proofs. -/

def substFuel (try_ : Str → Option (Str × Str)) : Nat → Str → Str
  | _, [] => []
  | 0, s => s
  | fuel + 1, c :: rest =>
    match try_ (c :: rest) with
    | some (repl, rem) => repl ++ substFuel try_ fuel rem
    | none => c :: substFuel try_ fuel rest

/-- `re.sub` for a matcher that consumes at least one character. -/
def subst (try_ : Str → Option (Str × Str)) (s : Str) : Str :=
  substFuel try_ s.length s

/-- A matcher is *consuming* when every match eats at least one character. -/
def Consuming (try_ : Str → Option (Str × Str)) : Prop :=
  ∀ s r rem, try_ s = some (r, rem) → rem.length < s.length

@[simp] theorem substFuel_nil (try_ : Str → Option (Str × Str)) (fuel : Nat) :
    substFuel try_ fuel [] = [] := by
  cases fuel <;> rfl

theorem substFuel_irrel (try_ : Str → Option (Str × Str))
    (hc : Consuming try_) :
    ∀ n s fuel₁ fuel₂, s.length ≤ n → s.length ≤ fuel₁ → s.length ≤ fuel₂ →
      substFuel try_ fuel₁ s = substFuel try_ fuel₂ s := by
  intro n
  induction n with
  | zero =>
    intro s _ _ hn _ _
    have : s = [] := List.eq_nil_of_length_eq_zero (by omega)
    subst this; simp
  | succ n ih =>
    intro s fuel₁ fuel₂ hn h1 h2
    cases s with
    | nil => simp
    | cons c rest =>
      simp only [List.length_cons] at hn h1 h2
      cases fuel₁ with
      | zero => omega
      | succ g₁ =>
        cases fuel₂ with
        | zero => omega
        | succ g₂ =>
          simp only [substFuel]
          cases htry : try_ (c :: rest) with
          | some pr =>
            obtain ⟨repl, rem⟩ := pr
            have hlt := hc _ _ _ htry
            simp only [List.length_cons] at hlt
            have := ih rem g₁ g₂ (by omega) (by omega) (by omega)
            simp [this]
          | none =>
            have := ih rest g₁ g₂ (by omega) (by omega) (by omega)
            simp [this]

theorem substFuel_fuel_irrel (try_ : Str → Option (Str × Str))
    (hc : Consuming try_) (fuel : Nat) (s : Str) (hs : s.length ≤ fuel) :
    substFuel try_ fuel s = subst try_ s :=
  substFuel_irrel try_ hc s.length s fuel s.length (le_refl _) hs (le_refl _)

@[simp] theorem subst_nil (try_ : Str → Option (Str × Str)) :
    subst try_ [] = [] := rfl

theorem subst_cons_none (try_ : Str → Option (Str × Str))
    (c : Char) (rest : Str)
    (h : try_ (c :: rest) = none) :
    subst try_ (c :: rest) = c :: subst try_ rest := by
  simp only [subst, List.length_cons, substFuel, h]

theorem subst_cons_some (try_ : Str → Option (Str × Str))
    (hc : Consuming try_) (c : Char) (rest : Str) (repl rem : Str)
    (h : try_ (c :: rest) = some (repl, rem)) :
    subst try_ (c :: rest) = repl ++ subst try_ rem := by
    have hlt := hc _ _ _ h
    simp only [List.length_cons] at hlt
    simp only [subst, List.length_cons, substFuel, h]
    rw [substFuel_irrel try_ hc rem.length rem rest.length rem.length
      (le_refl _) (by omega) (le_refl _)]

/-- Left part untouched: if the matcher fails at every suffix boundary inside
`u` (with the true continuation in view), substitution passes `u` through. -/
theorem subst_append_of_no_match (try_ : Str → Option (Str × Str))
    (u w : Str)
    (h : ∀ u₂, u₂ ≠ [] → u₂.IsSuffix u → try_ (u₂ ++ w) = none) :
    subst try_ (u ++ w) = u ++ subst try_ w := by
  induction u with
  | nil => simp
  | cons c rest ih =>
    have hfail : try_ (c :: (rest ++ w)) = none := by
      have := h (c :: rest) (by simp) (List.suffix_refl _)
      simpa using this
    have htail : subst try_ (rest ++ w) = rest ++ subst try_ w :=
      ih (fun u₂ hne hsuf => h u₂ hne (hsuf.trans (List.suffix_cons c rest)))
    simp only [List.cons_append]
    rw [subst_cons_none try_ _ _ hfail, htail]

/-- A matcher that never matches anywhere in `s` leaves `s` unchanged. -/
theorem subst_eq_self_of_no_match (try_ : Str → Option (Str × Str))
    (s : Str)
    (h : ∀ u₂, u₂ ≠ [] → u₂.IsSuffix s → try_ u₂ = none) :
    subst try_ s = s := by
  have := subst_append_of_no_match try_ s [] (by simpa using h)
  simpa using this

/-! ### Generic `re.split` embedding -/

/-- Prepend a character to the first segment of a split result. -/
def consHead (c : Char) : List Str → List Str
  | [] => [[c]]
  | seg :: segs => (c :: seg) :: segs

def splitFuel (try_ : Str → Option Str) : Nat → Str → List Str
  | _, [] => [[]]
  | 0, s => [s]
  | fuel + 1, c :: rest =>
    match try_ (c :: rest) with
    | some rem => [] :: splitFuel try_ fuel rem
    | none => consHead c (splitFuel try_ fuel rest)

/-- `re.split` for a separator matcher that consumes at least one character. -/
def splitRe (try_ : Str → Option Str) (s : Str) : List Str :=
  splitFuel try_ s.length s

/-- A separator matcher is consuming when every match eats ≥ 1 character. -/
def ConsumingS (try_ : Str → Option Str) : Prop :=
  ∀ s rem, try_ s = some rem → rem.length < s.length

theorem splitFuel_irrel (try_ : Str → Option Str) (hc : ConsumingS try_) :
    ∀ n s fuel₁ fuel₂, s.length ≤ n → s.length ≤ fuel₁ → s.length ≤ fuel₂ →
      splitFuel try_ fuel₁ s = splitFuel try_ fuel₂ s := by
  intro n
  induction n with
  | zero =>
    intro s fuel₁ fuel₂ hn _ _
    have : s = [] := List.eq_nil_of_length_eq_zero (by omega)
    subst this
    cases fuel₁ <;> cases fuel₂ <;> rfl
  | succ n ih =>
    intro s fuel₁ fuel₂ hn h1 h2
    cases s with
    | nil => cases fuel₁ <;> cases fuel₂ <;> rfl
    | cons c rest =>
      simp only [List.length_cons] at hn h1 h2
      cases fuel₁ with
      | zero => omega
      | succ g₁ =>
        cases fuel₂ with
        | zero => omega
        | succ g₂ =>
          simp only [splitFuel]
          cases htry : try_ (c :: rest) with
          | some rem =>
            have hlt := hc _ _ htry
            simp only [List.length_cons] at hlt
            have := ih rem g₁ g₂ (by omega) (by omega) (by omega)
            simp [this]
          | none =>
            have := ih rest g₁ g₂ (by omega) (by omega) (by omega)
            simp [this]

@[simp] theorem splitRe_nil (try_ : Str → Option Str) : splitRe try_ [] = [[]] := rfl

theorem splitRe_cons_some (try_ : Str → Option Str) (hc : ConsumingS try_)
    (c : Char) (rest rem : Str) (h : try_ (c :: rest) = some rem) :
    splitRe try_ (c :: rest) = [] :: splitRe try_ rem := by
  have hlt := hc _ _ h
  simp only [List.length_cons] at hlt
  simp only [splitRe, List.length_cons, splitFuel, h]
  rw [splitFuel_irrel try_ hc rem.length rem rest.length rem.length
    (le_refl _) (by omega) (le_refl _)]

theorem splitRe_cons_none (try_ : Str → Option Str)
    (c : Char) (rest : Str) (h : try_ (c :: rest) = none) :
    splitRe try_ (c :: rest) = consHead c (splitRe try_ rest) := by
  simp only [splitRe, List.length_cons, splitFuel, h]

/-! ### The concrete matchers of `_extract_lines_from_content`

Each matcher embeds one `re` pattern of the source, anchored at the head of
the input, returning the replacement text and the input after the match. -/

/-- `<[^>]+>` → `""` (generic tag stripping inside a segment). -/
def tryTag : Str → Option (Str × Str)
  | '<' :: rest =>
    match rest.dropWhile (· ≠ '>') with
    | '>' :: rem => if rest.takeWhile (· ≠ '>') = [] then none else some ([], rem)
    | _ => none
  | _ => none

/-- The HTML entities of `html.unescape` used in this development
(other text passes through unchanged). -/
def entityTable : List (Str × Char) :=
  [("&amp;".toList, '&'), ("&lt;".toList, '<'), ("&gt;".toList, '>'),
   ("&quot;".toList, '"'), ("&#39;".toList, Char.ofNat 39),
   ("&nbsp;".toList, Char.ofNat 0xa0)]

/-- One entity replacement step of `html.unescape`. -/
def tryEntity (s : Str) : Option (Str × Str) :=
  match s with
  | '&' :: _ =>
    (entityTable.find? (fun p => p.1.isPrefixOf s)).map
      (fun p => ([p.2], s.drop p.1.length))
  | _ => none

/-- Modelled `html.unescape` (see `entityTable`). -/
def pyUnescape (s : Str) : Str := subst tryEntity s

/-- `<font[^>]*>Chorus:<br>\s*</font>\s*` → `Chorus:<br>` (English only). -/
def tryChorusFont (s : Str) : Option (Str × Str) :=
  match matchLit "<font".toList s with
  | none => none
  | some r1 =>
    match r1.dropWhile (· ≠ '>') with
    | '>' :: r2 =>
      match matchLit "Chorus:<br>".toList r2 with
      | none => none
      | some r3 =>
        match matchLit "</font>".toList (skipWs r3) with
        | none => none
        | some r4 => some ("Chorus:<br>".toList, skipWs r4)
    | _ => none

/-- `</font>\s*<font[^>]*>` → `" "` (mid-line font change, English only). -/
def tryFontPair (s : Str) : Option (Str × Str) :=
  match matchLit "</font>".toList s with
  | none => none
  | some r1 =>
    match matchLit "<font".toList (skipWs r1) with
    | none => none
    | some r2 =>
      match r2.dropWhile (· ≠ '>') with
      | '>' :: rem => some (" ".toList, rem)
      | _ => none

/-- Common tail `LIT[^>]*>` of the `</?LIT[^>]*>` tag-removal patterns. -/
def tryTagTail (lit : Str) (r1 : Str) : Option (Str × Str) :=
  match matchLit lit r1 with
  | none => none
  | some r2 =>
    match r2.dropWhile (· ≠ '>') with
    | '>' :: rem => some ([], rem)
    | _ => none

/-- `</?font[^>]*>` → `""` (remaining font tags, English only). -/
def tryFontAny : Str → Option (Str × Str)
  | '<' :: '/' :: r1 => tryTagTail "font".toList r1
  | '<' :: r1 => tryTagTail "font".toList r1
  | _ => none

/-- `</p>\s*<p[^>]*>` → `"__P_BREAK__"`. -/
def tryPBreak (s : Str) : Option (Str × Str) :=
  match matchLit "</p>".toList s with
  | none => none
  | some r1 =>
    match matchLit "<p".toList (skipWs r1) with
    | none => none
    | some r2 =>
      match r2.dropWhile (· ≠ '>') with
      | '>' :: rem => some ("__P_BREAK__".toList, rem)
      | _ => none

/-- `</?p[^>]*>` → `""`. -/
def tryPTag : Str → Option (Str × Str)
  | '<' :: '/' :: r1 => tryTagTail "p".toList r1
  | '<' :: r1 => tryTagTail "p".toList r1
  | _ => none

/-- `<br\s*/?>` (line-break separator for `re.split`). -/
def tryBr (s : Str) : Option Str :=
  match matchLit "<br".toList s with
  | none => none
  | some r1 =>
    match skipWs r1 with
    | '/' :: '>' :: rem => some rem
    | '>' :: rem => some rem
    | _ => none

/-! ### The Line Extractor (`_extract_lines_from_content`) -/

def sectionBreakS : Str := "__SECTION_BREAK__".toList
def pBreakS : Str := "__P_BREAK__".toList

/-- First pass of the extractor: clean one raw segment and classify it as
content or section break, appending to the accumulated `clean_segments`. -/
def cleanSegmentsStep (acc : List Str) (seg : Str) : List Str :=
  let clean := pyUnescape (pyStrip (subst tryTag seg))
  if containsSub pBreakS seg && !acc.isEmpty then acc ++ [sectionBreakS]
  else if clean.isEmpty && !acc.isEmpty then acc ++ [sectionBreakS]
  else if !clean.isEmpty then acc ++ [clean]
  else acc

def firstPass (segs : List Str) : List Str := segs.foldl cleanSegmentsStep []

/-- `any(marker in next_segment.lower() for marker in ['hui:', 'chorus:'])`. -/
def hasMarkerSub (s : Str) : Bool :=
  containsSub "hui:".toList (lowerStr s) || containsSub "chorus:".toList (lowerStr s)

/-- The decision of the continuation-joining loop for the next segment:
`true` exactly on the code path that appends the segment to the open line. -/
def continuesLine (next : Str) : Bool :=
  if next = sectionBreakS then false
  else if hasMarkerSub next then false
  else
    match next with
    | [] => false
    | c :: _ => pyIsLower c

/-- The inner look-ahead loop: absorb continuation segments into `cur`. -/
def absorb (cur : Str) : List Str → Str × List Str
  | [] => (cur, [])
  | next :: rest =>
    if continuesLine next then absorb (cur ++ ' ' :: next) rest
    else (cur, next :: rest)

theorem absorb_rest_length (cur : Str) (segs : List Str) :
    (absorb cur segs).2.length ≤ segs.length := by
  induction segs generalizing cur with
  | nil => simp [absorb]
  | cons next rest ih =>
    simp only [absorb]
    by_cases h : continuesLine next
    · simp only [h, if_true]
      exact (ih _).trans (by simp)
    · simp [h]

def joinFuel : Nat → List Str → List Str
  | _, [] => []
  | 0, segs => segs
  | fuel + 1, seg :: rest =>
    if seg = sectionBreakS then seg :: joinFuel fuel rest
    else
      let (line, rest2) := absorb seg rest
      line :: joinFuel fuel rest2

/-- Second pass of the extractor: join wrapped lines (capitalization rule). -/
def joinPass (segs : List Str) : List Str := joinFuel segs.length segs

theorem joinFuel_irrel :
    ∀ n segs fuel₁ fuel₂, segs.length ≤ n → segs.length ≤ fuel₁ →
      segs.length ≤ fuel₂ → joinFuel fuel₁ segs = joinFuel fuel₂ segs := by
  intro n
  induction n with
  | zero =>
    intro segs fuel₁ fuel₂ hn _ _
    have : segs = [] := List.eq_nil_of_length_eq_zero (by omega)
    subst this
    cases fuel₁ <;> cases fuel₂ <;> rfl
  | succ n ih =>
    intro segs fuel₁ fuel₂ hn h1 h2
    cases segs with
    | nil => cases fuel₁ <;> cases fuel₂ <;> rfl
    | cons seg rest =>
      simp only [List.length_cons] at hn h1 h2
      cases fuel₁ with
      | zero => omega
      | succ g₁ =>
        cases fuel₂ with
        | zero => omega
        | succ g₂ =>
          simp only [joinFuel]
          by_cases hbrk : seg = sectionBreakS
          · have := ih rest g₁ g₂ (by omega) (by omega) (by omega)
            simp [hbrk, this]
          · have hlen := absorb_rest_length seg rest
            have := ih (absorb seg rest).2 g₁ g₂ (by omega) (by omega) (by omega)
            simp [hbrk, this]

@[simp] theorem joinPass_nil : joinPass [] = [] := rfl

theorem joinPass_cons_break (rest : List Str) :
    joinPass (sectionBreakS :: rest) = sectionBreakS :: joinPass rest := by
  simp only [joinPass, List.length_cons, joinFuel, if_true]

theorem joinPass_cons (seg : Str) (rest : List Str) (h : seg ≠ sectionBreakS) :
    joinPass (seg :: rest) =
      (absorb seg rest).1 :: joinPass (absorb seg rest).2 := by
  have hlen := absorb_rest_length seg rest
  simp only [joinPass, List.length_cons, joinFuel, h, if_false]
  rw [joinFuel_irrel rest.length (absorb seg rest).2 rest.length
    (absorb seg rest).2.length (by omega) (by omega) (le_refl _)]

/-- `while processed_lines and processed_lines[-1] == '__SECTION_BREAK__':
processed_lines.pop()`. -/
def dropTrailingBreaks (l : List Str) : List Str :=
  (l.reverse.dropWhile (· == sectionBreakS)).reverse

/-- The Line Extractor (`_extract_lines_from_content`). -/
def extractLines (content : Str) (isHawaiian : Bool) : List Str :=
  let content :=
    if !isHawaiian then
      subst tryFontAny (subst tryFontPair (subst tryChorusFont content))
    else content
  let content := subst tryPTag (subst tryPBreak content)
  let rawSegments := splitRe tryBr content
  let cleanSegments := firstPass rawSegments
  dropTrailingBreaks (joinPass cleanSegments)

/-! ### The alignment fix (`_fix_line_alignment`) -/

/-- `line.strip().lower() == 'hui:'`. -/
def isHuiLine (l : Str) : Bool := lowerStr (pyStrip l) == "hui:".toList

/-- `\s*\n\s*` → `" "`: a maximal whitespace run containing a newline. -/
def tryNl (s : Str) : Option (Str × Str) :=
  if (s.takeWhile pyIsSpace).contains '\n' then
    some (" ".toList, s.drop (s.takeWhile pyIsSpace).length)
  else none

/-- `\s+` → `" "`. -/
def trySpacePlus : Str → Option (Str × Str)
  | [] => none
  | c :: rest =>
    if pyIsSpace c then some (" ".toList, (c :: rest).dropWhile pyIsSpace)
    else none

/-- The per-line cleanup applied to every English line. -/
def cleanupLine (line : Str) : Str :=
  pyStrip (subst trySpacePlus (subst tryNl line))

/-- Python `list.insert` (clamped at the end). -/
def insertAt : Nat → Str → List Str → List Str
  | 0, x, l => x :: l
  | _ + 1, x, [] => [x]
  | n + 1, x, y :: l => y :: insertAt n x l

def chorusS : Str := "Chorus:".toList
/-- `"E hāʻawi"` (with macron `ā` U+0101 and okina U+02BB). -/
def eHaawiS : Str := ['E', ' ', 'h', Char.ofNat 0x101, Char.ofNat 0x2bb, 'a', 'w', 'i']
def ofYourS : Str := "Of your possessions".toList
/-- `'"Give, give away all'`. -/
def giveS : Str := '"' :: "Give, give away all".toList

/-- `_fix_line_alignment`: insert the `"Chorus:"` marker in English at the
first Hawaiian `hui:` position, apply the one data-specific patch, then
clean up every English line. -/
def fixLineAlignment (hawaiianLines englishLines : List Str) :
    List Str × List Str :=
  let englishLines :=
    match hawaiianLines.findIdx? isHuiLine with
    | none => englishLines
    | some huiIndex =>
      if huiIndex < englishLines.length then
        let e1 := insertAt huiIndex chorusS englishLines
        if huiIndex + 1 < hawaiianLines.length &&
            eHaawiS.isPrefixOf (hawaiianLines.getD (huiIndex + 1) []) then
          if huiIndex + 1 < e1.length &&
              ofYourS.isPrefixOf (e1.getD (huiIndex + 1) []) then
            insertAt (huiIndex + 1) giveS e1
          else e1
        else e1
      else englishLines
  (hawaiianLines, englishLines.map cleanupLine)

/-! ### Data model (`SongLine`, `SongSection`, `ParsedSong`) -/

structure SongLine where
  line_id : Str
  hawaiian_text : Str
  english_text : Str
  line_number : Nat
  section_type : Str
  section_number : Nat
  deriving DecidableEq, Repr

structure SongSection where
  section_id : Str
  section_type : Str
  section_number : Nat
  lines : List SongLine
  deriving DecidableEq, Repr

structure ParsedSongMetadata where
  source_file : Str
  title : Str
  composer : Str
  translator : Str
  stray_text : List Str
  deriving DecidableEq, Repr

structure ParsedSong where
  title : Str
  composer : Str
  translator : Str
  source_file : Str
  sections : List SongSection
  metadata : ParsedSongMetadata
  stray_text : List Str
  deriving DecidableEq, Repr

/-! ### The Section Builder (`_structure_into_sections`) -/

def verseS : Str := "verse".toList
def chorusTypeS : Str := "chorus".toList

/-- `_is_chorus_marker`. -/
def isChorusMarker (hawaiian english : Str) : Bool :=
  let hawaiianClean := lowerStr (pyStrip hawaiian)
  let englishClean := lowerStr (pyStrip english)
  hawaiianClean == "hui:".toList ||
  englishClean == "chorus:".toList ||
  "chorus:".toList.isPrefixOf englishClean ||
  "hui:".toList.isPrefixOf hawaiianClean

/-- Number the lines of a closed section 1..N (`enumerate(lines, 1)`). -/
def numberLines (sid : Str) (stype : Str) (snum : Nat) :
    Nat → List (Str × Str × Nat) → List SongLine
  | _, [] => []
  | k, (hawaiian, english, _) :: rest =>
    { line_id := sid ++ '.' :: natStr k
      hawaiian_text := hawaiian
      english_text := english
      line_number := k
      section_type := stype
      section_number := snum } :: numberLines sid stype snum (k + 1) rest

/-- The id/number choice of `_create_section`. -/
def sectionIdNum (sectionType : Str) (verseCount chorusCount : Nat) :
    Str × Nat :=
  if sectionType = verseS then ('v' :: natStr (verseCount + 1), verseCount + 1)
  else ('c' :: natStr (chorusCount + 1), chorusCount + 1)

/-- `_create_section`. -/
def createSection (lines : List (Str × Str × Nat)) (sectionType : Str)
    (verseCount chorusCount : Nat) : SongSection :=
  { section_id := (sectionIdNum sectionType verseCount chorusCount).1
    section_type := sectionType
    section_number := (sectionIdNum sectionType verseCount chorusCount).2
    lines := numberLines (sectionIdNum sectionType verseCount chorusCount).1
      sectionType (sectionIdNum sectionType verseCount chorusCount).2 1 lines }

/-- The main loop of `_structure_into_sections` over the paired lines,
carrying the current section's lines/type and both counters. -/
def sectLoop : List (Nat × Str × Str) → List (Str × Str × Nat) → Str →
    Nat → Nat → List SongSection
  | [], curLines, curType, verseCount, chorusCount =>
    if curLines.isEmpty then []
    else [createSection curLines curType verseCount chorusCount]
  | (i, hawaiian, english) :: rest, curLines, curType, verseCount, chorusCount =>
    if hawaiian = sectionBreakS ∨ english = sectionBreakS then
      if curLines.isEmpty then sectLoop rest [] verseS verseCount chorusCount
      else
        createSection curLines curType verseCount chorusCount ::
          (if curType = verseS then
            sectLoop rest [] verseS (verseCount + 1) chorusCount
          else
            sectLoop rest [] verseS verseCount (chorusCount + 1))
    else if isChorusMarker hawaiian english then
      sectLoop rest curLines chorusTypeS verseCount chorusCount
    else
      sectLoop rest (curLines ++ [(hawaiian, english, i)]) curType
        verseCount chorusCount

/-- Pair the two sides index-by-index up to the longer length, padding the
missing side with the empty string. -/
def pairLines (hawaiianLines englishLines : List Str) : List (Nat × Str × Str) :=
  (List.range (max hawaiianLines.length englishLines.length)).map
    (fun i => (i, hawaiianLines.getD i [], englishLines.getD i []))

/-- `_structure_into_sections`. -/
def structureIntoSections (hawaiianLines englishLines : List Str) :
    List SongSection :=
  sectLoop (pairLines hawaiianLines englishLines) [] verseS 0 0

/-! ### The Validator (`data_validation_system.py`) -/

/-- `IssueType` (the enum members of the source). -/
inductive IssueType where
  | line_count_mismatch | missing_translation | structural_mismatch
  | no_composer | no_lyricist | no_translator | unclear_attribution
  | unidentifiable_text | malformed_html | encoding_issues
  | missing_verse_markers
  | no_verse_chorus_structure | incomplete_lyrics | unusual_formatting
  | duplicate_content | empty_required_field | invalid_characters
  deriving DecidableEq, Repr

/-- `IssueSeverity`. -/
inductive IssueSeverity where
  | low | medium | high | critical
  deriving DecidableEq, Repr

/-- `ValidationIssue` (the wall-clock timestamp is not modelled). -/
structure ValidationIssue where
  issue_type : IssueType
  severity : IssueSeverity
  description : Str
  location : Str
  raw_content : Option Str := none
  suggested_action : Option Str := none
  deriving DecidableEq, Repr

/-- The dict handed to `validate_song` (built by `_prepare_validation_data`). -/
structure SongData where
  id : Str
  title : Str
  source_file : Str
  composer : Str
  lyricist : Str
  translator : Str
  hawaiian_lines : List Str
  english_lines : List Str
  has_verse_structure : Bool
  has_english_translation : Bool
  stray_text : List Str
  deriving DecidableEq, Repr

/-- `SongValidationResult` (scores are integral, see the header note). -/
structure SongValidationResult where
  song_id : Str
  song_title : Str
  source_file : Str
  hawaiian_lines : List Str
  english_lines : List Str
  composer : Option Str := none
  lyricist : Option Str := none
  translator : Option Str := none
  data_quality_score : Int := 0
  manual_review_required : Bool := false
  validation_issues : List ValidationIssue := []
  stray_text : List Str := []
  deriving DecidableEq, Repr

/-- An apostrophe (U+0027), for the issue-description texts. -/
def apos : Char := Char.ofNat 39

/-- `_validate_attribution`: the issues it appends and the attribution fields
it sets, in source order. -/
def validateAttribution (songData : SongData) (result : SongValidationResult) :
    SongValidationResult :=
  let composer := pyStrip songData.composer
  let result :=
    if composer.isEmpty then
      { result with validation_issues := result.validation_issues ++
        [{ issue_type := .no_composer, severity := .high
           description := "No composer credited for this song".toList
           location := "attribution section".toList }] }
    else { result with composer := some composer }
  let lyricist := pyStrip songData.lyricist
  let result :=
    if lyricist.isEmpty then
      { result with validation_issues := result.validation_issues ++
        [{ issue_type := .no_lyricist, severity := .medium
           description := "No lyricist credited for this song".toList
           location := "attribution section".toList }] }
    else { result with lyricist := some lyricist }
  let translator := pyStrip songData.translator
  if translator.isEmpty && songData.has_english_translation then
    { result with validation_issues := result.validation_issues ++
      [{ issue_type := .no_translator, severity := .medium
         description := "Song has English translation but no translator credited".toList
         location := "attribution section".toList }] }
  else { result with translator := some translator }

/-- `_validate_line_structure`. -/
def validateLineStructure (songData : SongData) (result : SongValidationResult) :
    SongValidationResult :=
  let hawaiianLines := songData.hawaiian_lines
  let englishLines := songData.english_lines
  let result := { result with hawaiian_lines := hawaiianLines,
                              english_lines := englishLines }
  let result :=
    if hawaiianLines.length ≠ englishLines.length then
      { result with validation_issues := result.validation_issues ++
        [{ issue_type := .line_count_mismatch, severity := .high
           description := "Hawaiian lines (".toList ++ natStr hawaiianLines.length
             ++ ") don".toList ++ [apos] ++ "t match English lines (".toList
             ++ natStr englishLines.length ++ ")".toList
           location := "lyrics section".toList
           suggested_action := some "Manual review required to align translations".toList }] }
    else result
  let result :=
    if !hawaiianLines.isEmpty && englishLines.isEmpty then
      { result with validation_issues := result.validation_issues ++
        [{ issue_type := .missing_translation, severity := .medium
           description := "Song has Hawaiian lyrics but no English translation".toList
           location := "lyrics section".toList }] }
    else result
  if !songData.has_verse_structure then
    { result with validation_issues := result.validation_issues ++
      [{ issue_type := .no_verse_chorus_structure, severity := .medium
         description := "Unable to identify clear verse/chorus structure".toList
         location := "lyrics section".toList }] }
  else result

/-- `' '.join(...)` over the two line lists. -/
def joinSpace : List Str → Str
  | [] => []
  | [l] => l
  | l :: rest => l ++ ' ' :: joinSpace rest

/-- `str(list_of_strings)[:200]` is not reproduced literally; the model keeps
the raw stray text joined, truncated to 200 characters, which is what the
snippet is for.  No theorem below depends on this field's exact text. -/
def straySnippet (strayText : List Str) : Str :=
  (joinSpace strayText).take 200

/-- `_validate_content_quality`. -/
def validateContentQuality (songData : SongData) (result : SongValidationResult) :
    SongValidationResult :=
  let strayText := songData.stray_text
  let result :=
    if !strayText.isEmpty then
      { result with
        stray_text := strayText
        validation_issues := result.validation_issues ++
        [{ issue_type := .unidentifiable_text, severity := .medium
           description := "Found ".toList ++ natStr strayText.length
             ++ " segments of unidentifiable text".toList
           location := "various".toList
           raw_content := some (straySnippet strayText)
           suggested_action := some "Manual review to categorize or discard".toList }] }
    else result
  let allText := joinSpace (result.hawaiian_lines ++ result.english_lines)
  if allText.any (fun c => 65535 < c.toNat) then
    { result with validation_issues := result.validation_issues ++
      [{ issue_type := .encoding_issues, severity := .low
         description := "Contains unusual Unicode characters".toList
         location := "lyrics content".toList }] }
  else result

/-- Per-severity deduction of `_calculate_quality_score`. -/
def severityPenalty : IssueSeverity → Int
  | .critical => 25
  | .high => 15
  | .medium => 8
  | .low => 3

/-- `_calculate_quality_score`. -/
def calculateQualityScore (result : SongValidationResult) : Int :=
  let score := result.validation_issues.foldl
    (fun s i => s - severityPenalty i.severity) 100
  max 0 score

/-- `_requires_manual_review`. -/
def requiresManualReview (result : SongValidationResult) : Bool :=
  let criticalIssues := result.validation_issues.filter
    (fun i => i.severity = IssueSeverity.critical ∨ i.severity = IssueSeverity.high)
  0 < criticalIssues.length ||
  result.data_quality_score < 70 ||
  0 < result.stray_text.length ||
  5 < result.validation_issues.length

/-- `validate_song` (the validator's per-song entry point; the process-wide
accumulation into `validation_results` is caller-side logging, not modelled). -/
def validateSong (songData : SongData) : SongValidationResult :=
  let result : SongValidationResult :=
    { song_id := songData.id
      song_title := songData.title
      source_file := songData.source_file
      hawaiian_lines := []
      english_lines := [] }
  let result := validateAttribution songData result
  let result := validateLineStructure songData result
  let result := validateContentQuality songData result
  let result := { result with data_quality_score := calculateQualityScore result }
  { result with manual_review_required := requiresManualReview result }

/-! ### `_prepare_validation_data` -/

/-- Flatten all section lines, one Hawaiian and one English entry per line. -/
def flattenLines (sections : List SongSection) : List Str × List Str :=
  (sections.flatMap (fun sec => sec.lines.map (·.hawaiian_text)),
   sections.flatMap (fun sec => sec.lines.map (·.english_text)))

/-- `_prepare_validation_data` (the `lyricist` key is absent from the parser
metadata dict, so `metadata.get('lyricist', '')` is always `''`). -/
def prepareValidationData (parsedSong : ParsedSong) : SongData :=
  let (allHawaiian, allEnglish) := flattenLines parsedSong.sections
  { id := parsedSong.source_file
    title := parsedSong.title
    source_file := parsedSong.source_file
    composer := parsedSong.composer
    lyricist := []
    translator := parsedSong.translator
    hawaiian_lines := allHawaiian
    english_lines := allEnglish
    has_verse_structure := !parsedSong.sections.isEmpty
    has_english_translation :=
      !allEnglish.isEmpty && allEnglish.any (fun l => !(pyStrip l).isEmpty)
    stray_text := parsedSong.stray_text }

/-! ### Parse-level regex searches (`_extract_metadata`, `_extract_table_content`,
`_parse_lyrics_columns`) -/

/-- Shortest-split search for a lazy group `(.*?)` followed by a suffix
pattern `k`: try `k` at each split point left to right and keep the first
success, returning `k`'s result. -/
def lazyFind (k : Str → Option Str) : Str → Option Str
  | [] => k []
  | c :: cs =>
    match k (c :: cs) with
    | some r => some r
    | none => lazyFind k cs

/-- As `lazyFind`, but also return the group text (the skipped prefix). -/
def lazyGroup (k : Str → Option Str) : Str → Option (Str × Str)
  | [] => (k []).map (fun r => ([], r))
  | c :: cs =>
    match k (c :: cs) with
    | some r => some ([], r)
    | none => (lazyGroup k cs).map (fun p => (c :: p.1, p.2))

/-- `re.search`: first match over successive start positions. -/
def reSearch (m : Str → Option β) : Str → Option β
  | [] => m []
  | c :: cs =>
    match m (c :: cs) with
    | some b => some b
    | none => reSearch m cs

/-- `<td width="53%"` / `<td width="45%"` literals. -/
def td53 : Str := "<td width=\"53%\"".toList
def td45 : Str := "<td width=\"45%\"".toList

/-- `LIT[^>]*>`: a literal `td` opener followed by attributes and `>`. -/
def matchTdOpen (widthLit : Str) (s : Str) : Option Str :=
  match matchLit widthLit s with
  | none => none
  | some r1 =>
    match r1.dropWhile (· ≠ '>') with
    | '>' :: r2 => some r2
    | _ => none

/-- `</td>\s*</tr>` (tail of the table pattern). -/
def tableTail2 (s : Str) : Option Str :=
  match matchLit "</td>".toList s with
  | none => none
  | some r => matchLit "</tr>".toList (skipWs r)

/-- `</td>\s*<td width="45%"[^>]*>(.*?)</td>\s*</tr>`. -/
def tableTail1 (s : Str) : Option Str :=
  match matchLit "</td>".toList s with
  | none => none
  | some r =>
    match matchTdOpen td45 (skipWs r) with
    | none => none
    | some r2 => lazyFind tableTail2 r2

/-- The full lyrics-table pattern
`<tr>\s*<td width="53%"[^>]*>(.*?)</td>\s*<td width="45%"[^>]*>(.*?)</td>\s*</tr>`
anchored at the head; returns the remainder after the whole match. -/
def tableMatchAt (s : Str) : Option Str :=
  match matchLit "<tr>".toList s with
  | none => none
  | some r =>
    match matchTdOpen td53 (skipWs r) with
    | none => none
    | some r2 => lazyFind tableTail1 r2

/-- `_extract_table_content`'s `re.search(...).group(0)`: the first table
match, as the matched substring. -/
def tableSearch : Str → Option Str
  | [] =>
    match tableMatchAt [] with
    | some _ => some []
    | none => none
  | c :: cs =>
    match tableMatchAt (c :: cs) with
    | some r => some ((c :: cs).take ((c :: cs).length - r.length))
    | none => tableSearch cs

/-- `<td width="53%"[^>]*>(.*?)</td>` anchored at the head: group 1. -/
def match53At (s : Str) : Option Str :=
  match matchTdOpen td53 s with
  | none => none
  | some r => (lazyGroup (matchLit "</td>".toList) r).map (·.1)

/-- `<td width="45%"[^>]*>(.*?)</td>` anchored at the head: group 1. -/
def match45At (s : Str) : Option Str :=
  match matchTdOpen td45 s with
  | none => none
  | some r => (lazyGroup (matchLit "</td>".toList) r).map (·.1)

/-- `<font size="3">([^<]+)</font>` anchored at the head: group 1 and rest. -/
def matchTitleFontAt (s : Str) : Option (Str × Str) :=
  match matchLit "<font size=\"3\">".toList s with
  | none => none
  | some r =>
    match r.takeWhile (· ≠ '<'), r.dropWhile (· ≠ '<') with
    | [], _ => none
    | g1, r1 =>
      match matchLit "</font>".toList r1 with
      | none => none
      | some r2 => some (g1, r2)

/-- The full title/composer pattern of `_extract_metadata`:
`<font size="3">([^<]+)</font>\s*\([^)]*\)\s*-\s*<font size="-1">music by ([^<]+)</font>`
anchored at the head; returns (title group, composer group). -/
def titleMatchAt (s : Str) : Option (Str × Str) :=
  match matchTitleFontAt s with
  | none => none
  | some (g1, r2) =>
    match matchLit "(".toList (skipWs r2) with
    | none => none
    | some r3 =>
      match (r3.dropWhile (· ≠ ')')) with
      | ')' :: r5 =>
        match matchLit "-".toList (skipWs r5) with
        | none => none
        | some r6 =>
          match matchLit "<font size=\"-1\">music by ".toList (skipWs r6) with
          | none => none
          | some r7 =>
            match r7.takeWhile (· ≠ '<'), r7.dropWhile (· ≠ '<') with
            | [], _ => none
            | g2, r8 =>
              match matchLit "</font>".toList r8 with
              | none => none
              | some _ => some (g1, g2)
      | _ => none

/-- `_extract_metadata`. -/
def extractMetadata (content : Str) (filePath : Str) : ParsedSongMetadata :=
  match reSearch titleMatchAt content with
  | some (g1, g2) =>
    { source_file := filePath
      title := pyUnescape (pyStrip g1)
      composer := pyUnescape (pyStrip g2)
      translator := []
      stray_text := [] }
  | none =>
    match reSearch matchTitleFontAt content with
    | some (g1, _) =>
      { source_file := filePath
        title := pyUnescape (pyStrip g1)
        composer := []
        translator := []
        stray_text := ["Could not parse composer from title section".toList] }
    | none =>
      { source_file := filePath
        title := []
        composer := []
        translator := []
        stray_text := [] }

/-- Build the `ParsedSong` and validation result once both columns are in
hand (the always-succeeding tail of `parse_file`). -/
def buildParsedSong (metadata : ParsedSongMetadata) (filePath : Str)
    (hawaiianContent englishContent : Str) :
    ParsedSong × SongValidationResult :=
  let hawaiianLines := extractLines hawaiianContent true
  let englishLines := extractLines englishContent false
  let fixed := fixLineAlignment hawaiianLines englishLines
  let sections := structureIntoSections fixed.1 fixed.2
  let parsedSong : ParsedSong :=
    { title := metadata.title
      composer := metadata.composer
      translator := metadata.translator
      source_file := filePath
      sections := sections
      metadata := metadata
      stray_text := metadata.stray_text }
  (parsedSong, validateSong (prepareValidationData parsedSong))

/-- The whole `parse_file` pipeline on file content (file I/O at the caller):
raises (`Except.error`) exactly where the source raises `ValueError`. -/
def parseContent (content : Str) (filePath : Str) :
    Except Str (ParsedSong × SongValidationResult) :=
  let metadata := extractMetadata content filePath
  match tableSearch content with
  | none => .error "Could not find main lyrics table in HTML".toList
  | some tableContent =>
    match reSearch match53At tableContent, reSearch match45At tableContent with
    | some hawaiianContent, some englishContent =>
      .ok (buildParsedSong metadata filePath hawaiianContent englishContent)
    | _, _ =>
      .error "Could not extract both Hawaiian and English columns".toList

/-! ### Groundwork lemmas about the matchers -/

theorem matchLit_eq_some {p s r : Str} (h : matchLit p s = some r) :
    s = p ++ r := by
  induction p generalizing s with
  | nil => simpa [matchLit] using h
  | cons x xs ih =>
    cases s with
    | nil => simp [matchLit] at h
    | cons c cs =>
      simp only [matchLit] at h
      by_cases hx : x = c
      · subst hx
        simp only [if_pos rfl] at h
        simpa using ih h
      · simp [hx] at h

theorem matchLit_append (p r : Str) : matchLit p (p ++ r) = some r := by
  induction p with
  | nil => simp [matchLit]
  | cons x xs ih => simp [matchLit, ih]

theorem matchLit_length {p s r : Str} (h : matchLit p s = some r) :
    s.length = p.length + r.length := by
  have := matchLit_eq_some h
  subst this; simp

theorem matchLit_nil_of_ne {p : Str} (h : p ≠ []) : matchLit p [] = none := by
  cases p with
  | nil => exact absurd rfl h
  | cons x xs => rfl

theorem skipWs_length (s : Str) : (skipWs s).length ≤ s.length := by
  simpa [skipWs] using List.Sublist.length_le (List.dropWhile_sublist pyIsSpace)

theorem dropWhile_ne_length (c : Char) (s : Str) :
    (s.dropWhile (· ≠ c)).length ≤ s.length :=
  List.Sublist.length_le (List.dropWhile_sublist _)

/-- Splitting on the first occurrence of `c`. -/
theorem dropWhile_ne_decomp (c : Char) (s rest : Str)
    (h : s.dropWhile (· ≠ c) = c :: rest) :
    s = s.takeWhile (· ≠ c) ++ c :: rest ∧
      ∀ x ∈ s.takeWhile (· ≠ c), x ≠ c := by
  constructor
  · conv_lhs => rw [← List.takeWhile_append_dropWhile (p := (· ≠ c)) (l := s)]
    rw [h]
  · intro x hx
    have := List.mem_takeWhile_imp hx
    simpa using this

/-- `[^>]*` followed by `>` over `attrs ++ '>' :: rest`. -/
theorem dropWhile_ne_append (c : Char) (attrs rest : Str)
    (h : ∀ x ∈ attrs, x ≠ c) :
    (attrs ++ c :: rest).dropWhile (· ≠ c) = c :: rest := by
  induction attrs with
  | nil => simp [List.dropWhile]
  | cons a as ih =>
    have ha : a ≠ c := h a (by simp)
    have ih2 := ih (fun x hx => h x (by simp [hx]))
    simp only [List.cons_append, List.dropWhile_cons]
    rw [if_pos (by simpa using ha)]
    exact ih2

theorem skipWs_of_head_not_space (c : Char) (s : Str) (h : pyIsSpace c = false) :
    skipWs (c :: s) = c :: s := by
  simp [skipWs, List.dropWhile, h]

/-! Head-character lemmas: each matcher can only fire on its first literal
character, so scanning is inert elsewhere. -/

theorem tryTag_head {c : Char} {s : Str} (h : c ≠ '<') :
    tryTag (c :: s) = none := by
  unfold tryTag
  split
  · simp_all
  · rfl

theorem tryEntity_head {c : Char} {s : Str} (h : c ≠ '&') :
    tryEntity (c :: s) = none := by
  unfold tryEntity
  split
  · simp_all
  · rfl

theorem matchLit_cons_ne {p c : Char} {ps cs : Str} (h : p ≠ c) :
    matchLit (p :: ps) (c :: cs) = none := by
  simp [matchLit, h]

theorem tryChorusFont_head {c : Char} {s : Str} (h : c ≠ '<') :
    tryChorusFont (c :: s) = none := by
  unfold tryChorusFont
  rw [show "<font".toList = '<' :: "font".toList from rfl,
    matchLit_cons_ne (Ne.symm h)]

theorem tryFontPair_head {c : Char} {s : Str} (h : c ≠ '<') :
    tryFontPair (c :: s) = none := by
  unfold tryFontPair
  rw [show "</font>".toList = '<' :: "/font>".toList from rfl,
    matchLit_cons_ne (Ne.symm h)]

theorem tryFontAny_head {c : Char} {s : Str} (h : c ≠ '<') :
    tryFontAny (c :: s) = none := by
  unfold tryFontAny
  split
  · simp_all
  · simp_all
  · rfl

theorem tryPBreak_head {c : Char} {s : Str} (h : c ≠ '<') :
    tryPBreak (c :: s) = none := by
  unfold tryPBreak
  rw [show "</p>".toList = '<' :: "/p>".toList from rfl,
    matchLit_cons_ne (Ne.symm h)]

theorem tryPTag_head {c : Char} {s : Str} (h : c ≠ '<') :
    tryPTag (c :: s) = none := by
  unfold tryPTag
  split
  · simp_all
  · simp_all
  · rfl

theorem tryBr_head {c : Char} {s : Str} (h : c ≠ '<') :
    tryBr (c :: s) = none := by
  unfold tryBr
  rw [show "<br".toList = '<' :: "br".toList from rfl,
    matchLit_cons_ne (Ne.symm h)]

theorem tryNl_head {c : Char} {s : Str} (h : pyIsSpace c = false) :
    tryNl (c :: s) = none := by
  simp [tryNl, List.takeWhile_cons, h]

theorem trySpacePlus_head {c : Char} {s : Str} (h : pyIsSpace c = false) :
    trySpacePlus (c :: s) = none := by
  simp [trySpacePlus, h]

/-! Consumption: each matcher eats at least one character. -/

theorem tryTag_consuming : Consuming tryTag := by
  intro s r rem h
  unfold tryTag at h
  split at h
  · next rest =>
    split at h
    · next r2 heq =>
      split at h
      · simp at h
      · have h1 := dropWhile_ne_length '>' rest
        rw [heq] at h1
        simp only [List.length_cons] at h1
        simp only [Option.some.injEq, Prod.mk.injEq] at h
        obtain ⟨_, h3⟩ := h
        subst h3
        simp only [List.length_cons]
        omega
    · simp at h
  · simp at h

theorem tryEntity_consuming : Consuming tryEntity := by
  intro s r rem h
  unfold tryEntity at h
  split at h
  · next c rest =>
    simp only [Option.map_eq_some'] at h
    obtain ⟨p, hfind, heq⟩ := h
    have hmem := List.mem_of_find?_eq_some hfind
    have hple : 1 ≤ p.1.length := by
      fin_cases hmem <;> simp [entityTable]
    simp only [Prod.mk.injEq] at heq
    obtain ⟨_, h3⟩ := heq
    subst h3
    simp only [List.length_drop, List.length_cons]
    have hpre : p.1.isPrefixOf ('&' :: rest) = true := by
      simpa using List.find?_some hfind
    have hlen : p.1.length ≤ ('&' :: rest).length :=
      (List.isPrefixOf_iff_prefix.mp hpre).length_le
    simp only [List.length_cons] at hlen
    omega
  · simp at h

theorem tryChorusFont_consuming : Consuming tryChorusFont := by
  intro s r rem h
  unfold tryChorusFont at h
  split at h
  · simp at h
  · next r1 hm1 =>
    split at h
    · next r2 heq =>
      split at h
      · simp at h
      · next r3 hm3 =>
        split at h
        · simp at h
        · next r4 hm4 =>
          simp only [Option.some.injEq, Prod.mk.injEq] at h
          obtain ⟨_, hrem⟩ := h
          subst hrem
          have l1 := matchLit_length hm1
          have l2 := dropWhile_ne_length '>' r1
          rw [heq] at l2
          simp only [List.length_cons] at l2
          have l3 := matchLit_length hm3
          have l4 := skipWs_length r3
          have l5 := matchLit_length hm4
          have l6 := skipWs_length r4
          simp only [String.length] at *
          omega
    · simp at h

theorem tryFontPair_consuming : Consuming tryFontPair := by
  intro s r rem h
  unfold tryFontPair at h
  split at h
  · simp at h
  · next r1 hm1 =>
    split at h
    · simp at h
    · next r2 hm2 =>
      split at h
      · next rem2 heq =>
        simp only [Option.some.injEq, Prod.mk.injEq] at h
        obtain ⟨_, hrem⟩ := h
        subst hrem
        have l1 := matchLit_length hm1
        have l2 := skipWs_length r1
        have l3 := matchLit_length hm2
        have l4 := dropWhile_ne_length '>' r2
        rw [heq] at l4
        simp only [List.length_cons] at l4
        omega
      · simp at h

theorem tryTagTail_length {lit r1 r rem : Str}
    (h : tryTagTail lit r1 = some (r, rem)) :
    rem.length + lit.length < r1.length + 1 := by
  unfold tryTagTail at h
  split at h
  · simp at h
  · next r2 hm2 =>
    split at h
    · next rem2 heq =>
      simp only [Option.some.injEq, Prod.mk.injEq] at h
      obtain ⟨_, hrem⟩ := h
      subst hrem
      have l3 := matchLit_length hm2
      have l4 := dropWhile_ne_length '>' r2
      rw [heq] at l4
      simp only [List.length_cons] at l4
      omega
    · simp at h

theorem tryFontAny_consuming : Consuming tryFontAny := by
  intro s r rem h
  unfold tryFontAny at h
  split at h
  · have := tryTagTail_length h
    simp only [List.length_cons]
    simp only [String.toList] at this
    omega
  · have := tryTagTail_length h
    simp only [List.length_cons]
    simp only [String.toList] at this
    omega
  · simp at h

theorem tryPBreak_consuming : Consuming tryPBreak := by
  intro s r rem h
  unfold tryPBreak at h
  split at h
  · simp at h
  · next r1 hm1 =>
    split at h
    · simp at h
    · next r2 hm2 =>
      split at h
      · next rem2 heq =>
        simp only [Option.some.injEq, Prod.mk.injEq] at h
        obtain ⟨_, hrem⟩ := h
        subst hrem
        have l1 := matchLit_length hm1
        have l2 := skipWs_length r1
        have l3 := matchLit_length hm2
        have l4 := dropWhile_ne_length '>' r2
        rw [heq] at l4
        simp only [List.length_cons] at l4
        omega
      · simp at h

theorem tryPTag_consuming : Consuming tryPTag := by
  intro s r rem h
  unfold tryPTag at h
  split at h
  · have := tryTagTail_length h
    simp only [List.length_cons]
    simp only [String.toList] at this
    omega
  · have := tryTagTail_length h
    simp only [List.length_cons]
    simp only [String.toList] at this
    omega
  · simp at h

theorem tryBr_consuming : ConsumingS tryBr := by
  intro s rem h
  unfold tryBr at h
  split at h
  · simp at h
  · next r1 hm1 =>
    have l1 := matchLit_length hm1
    have l2 := skipWs_length r1
    split at h
    · next rem2 hsk =>
      simp only [Option.some.injEq] at h
      have hlen2 : (skipWs r1).length = rem2.length + 2 := by rw [hsk]; simp
      subst h
      omega
    · next rem2 hsk =>
      simp only [Option.some.injEq] at h
      have hlen2 : (skipWs r1).length = rem2.length + 1 := by rw [hsk]; simp
      subst h
      omega
    · simp at h

theorem tryNl_consuming : Consuming tryNl := by
  intro s r rem h
  unfold tryNl at h
  split at h
  · next hrun =>
    simp only [Option.some.injEq, Prod.mk.injEq] at h
    obtain ⟨_, hrem⟩ := h
    subst hrem
    have hne : (s.takeWhile pyIsSpace) ≠ [] := by
      intro hnil
      rw [hnil] at hrun
      simp at hrun
    have hpos : 0 < (s.takeWhile pyIsSpace).length := List.length_pos.mpr hne
    have hle : (s.takeWhile pyIsSpace).length ≤ s.length :=
      List.Sublist.length_le (List.takeWhile_sublist _)
    simp only [List.length_drop]
    omega
  · simp at h

theorem trySpacePlus_consuming : Consuming trySpacePlus := by
  intro s r rem h
  unfold trySpacePlus at h
  split at h
  · simp at h
  · next c rest =>
    split at h
    · next hsp =>
      simp only [Option.some.injEq, Prod.mk.injEq] at h
      obtain ⟨_, hrem⟩ := h
      subst hrem
      simp only [List.dropWhile_cons, hsp, List.length_cons, if_true]
      have := List.Sublist.length_le (List.dropWhile_sublist (l := rest) pyIsSpace)
      omega
    · simp at h

/-! ### Structural lemmas about the extractor and the Section Builder -/

theorem sectionBreakS_ne_nil : sectionBreakS ≠ [] := by decide

theorem firstPass_aux_ne_nil (segs : List Str) :
    ∀ acc, (∀ l ∈ acc, l ≠ []) →
      ∀ l ∈ segs.foldl cleanSegmentsStep acc, l ≠ [] := by
  induction segs with
  | nil => intro acc hacc; simpa using hacc
  | cons seg rest ih =>
    intro acc hacc
    simp only [List.foldl_cons]
    apply ih
    intro l hl
    simp only [cleanSegmentsStep] at hl
    split_ifs at hl with h1 h2 h3
    · rcases List.mem_append.mp hl with h | h
      · exact hacc l h
      · simp only [List.mem_singleton] at h
        subst h; exact sectionBreakS_ne_nil
    · rcases List.mem_append.mp hl with h | h
      · exact hacc l h
      · simp only [List.mem_singleton] at h
        subst h; exact sectionBreakS_ne_nil
    · rcases List.mem_append.mp hl with h | h
      · exact hacc l h
      · simp only [List.mem_singleton] at h
        subst h
        simpa [List.isEmpty_iff] using h3
    · exact hacc l hl

theorem firstPass_ne_nil (segs : List Str) :
    ∀ l ∈ firstPass segs, l ≠ [] :=
  firstPass_aux_ne_nil segs [] (by simp)

theorem absorb_fst_ne_nil (cur : Str) (segs : List Str) (h : cur ≠ []) :
    (absorb cur segs).1 ≠ [] := by
  induction segs generalizing cur with
  | nil => simpa [absorb]
  | cons next rest ih =>
    unfold absorb
    by_cases hc : continuesLine next
    · simp only [hc, if_true]
      exact ih _ (by simp [h])
    · simpa [hc]

theorem absorb_snd_suffix (cur : Str) (segs : List Str) :
    (absorb cur segs).2.IsSuffix segs := by
  induction segs generalizing cur with
  | nil => simp [absorb]
  | cons next rest ih =>
    unfold absorb
    by_cases hc : continuesLine next
    · simp only [hc, if_true]
      exact (ih _).trans (List.suffix_cons next rest)
    · simp [hc]

theorem joinPass_mem_ne_nil :
    ∀ n segs, segs.length ≤ n → (∀ s ∈ segs, s ≠ []) →
      ∀ l ∈ joinPass segs, l ≠ [] := by
  intro n
  induction n with
  | zero =>
    intro segs hn _
    have : segs = [] := List.eq_nil_of_length_eq_zero (by omega)
    subst this; simp
  | succ n ih =>
    intro segs hn hne l hl
    cases segs with
    | nil => simp at hl
    | cons seg rest =>
      by_cases hbrk : seg = sectionBreakS
      · subst hbrk
        rw [joinPass_cons_break] at hl
        rcases List.mem_cons.mp hl with h | h
        · subst h; exact sectionBreakS_ne_nil
        · exact ih rest (by simpa using hn) (fun s hs => hne s (by simp [hs])) l h
      · rw [joinPass_cons seg rest hbrk] at hl
        rcases List.mem_cons.mp hl with h | h
        · subst h
          exact absorb_fst_ne_nil seg rest (hne seg (by simp))
        · have hsuf := absorb_snd_suffix seg rest
          have hlen : (absorb seg rest).2.length ≤ rest.length :=
            List.IsSuffix.length_le hsuf
          simp only [List.length_cons] at hn
          exact ih (absorb seg rest).2 (by omega)
            (fun s hs => hne s (by simp [hsuf.subset hs])) l h

theorem dropTrailingBreaks_subset {l : List Str} {x : Str}
    (h : x ∈ dropTrailingBreaks l) : x ∈ l := by
  unfold dropTrailingBreaks at h
  rw [List.mem_reverse] at h
  have := (List.dropWhile_sublist (l := l.reverse) (· == sectionBreakS)).subset h
  simpa using this

theorem extractLines_ne_nil (content : Str) (isHawaiian : Bool) :
    ∀ l ∈ extractLines content isHawaiian, l ≠ [] := by
  intro l hl
  unfold extractLines at hl
  have hl2 := dropTrailingBreaks_subset hl
  exact joinPass_mem_ne_nil _ _ (le_refl _) (firstPass_ne_nil _) l hl2

theorem numberLines_mem_inv {sid stype : Str} {snum : Nat}
    {lines : List (Str × Str × Nat)} :
    ∀ k l, l ∈ numberLines sid stype snum k lines →
      ∃ t ∈ lines, l.hawaiian_text = t.1 ∧ l.english_text = t.2.1 := by
  induction lines with
  | nil => intro k l h; simp [numberLines] at h
  | cons t rest ih =>
    intro k l h
    obtain ⟨hw, en, j⟩ := t
    simp only [numberLines, List.mem_cons] at h
    rcases h with h | h
    · subst h
      exact ⟨(hw, en, j), by simp⟩
    · obtain ⟨t2, ht2, h1, h2⟩ := ih (k + 1) l h
      exact ⟨t2, by simp [ht2], h1, h2⟩

theorem numberLines_mem_fwd {sid stype : Str} {snum : Nat}
    {lines : List (Str × Str × Nat)} {t : Str × Str × Nat} :
    ∀ k, t ∈ lines →
      ∃ l ∈ numberLines sid stype snum k lines,
        l.hawaiian_text = t.1 ∧ l.english_text = t.2.1 := by
  induction lines with
  | nil => intro k h; simp at h
  | cons t0 rest ih =>
    intro k h
    obtain ⟨hw, en, j⟩ := t0
    rcases List.mem_cons.mp h with h | h
    · subst h
      exact ⟨⟨sid ++ '.' :: natStr k, hw, en, k, stype, snum⟩,
        by simp [numberLines], rfl, rfl⟩
    · obtain ⟨l, hlmem, h1, h2⟩ := ih (k + 1) h
      exact ⟨l, by simp [numberLines, hlmem], h1, h2⟩

theorem createSection_mem_inv {lines : List (Str × Str × Nat)}
    {sectionType : Str} {vc cc : Nat} {l : SongLine}
    (h : l ∈ (createSection lines sectionType vc cc).lines) :
    ∃ t ∈ lines, l.hawaiian_text = t.1 ∧ l.english_text = t.2.1 := by
  unfold createSection at h
  exact numberLines_mem_inv 1 l h

theorem createSection_mem_fwd {lines : List (Str × Str × Nat)}
    {sectionType : Str} {vc cc : Nat} {t : Str × Str × Nat}
    (h : t ∈ lines) :
    ∃ l ∈ (createSection lines sectionType vc cc).lines,
      l.hawaiian_text = t.1 ∧ l.english_text = t.2.1 := by
  unfold createSection
  exact numberLines_mem_fwd 1 h

theorem sectLoop_mem_cur {t : Str × Str × Nat} :
    ∀ (pairs : List (Nat × Str × Str)) (curLines : List (Str × Str × Nat))
      (curType : Str) (vc cc : Nat), t ∈ curLines →
      ∃ sec ∈ sectLoop pairs curLines curType vc cc,
        ∃ l ∈ sec.lines, l.hawaiian_text = t.1 ∧ l.english_text = t.2.1 := by
  intro pairs
  induction pairs with
  | nil =>
    intro curLines curType vc cc ht
    have hne : curLines.isEmpty = false := by
      cases curLines with
      | nil => simp at ht
      | cons a b => simp
    unfold sectLoop
    rw [hne]
    simp only [Bool.false_eq_true, if_false]
    obtain ⟨l, hl, h1, h2⟩ := @createSection_mem_fwd _ curType vc cc _ ht
    exact ⟨_, by simp, l, hl, h1, h2⟩
  | cons p rest ih =>
    intro curLines curType vc cc ht
    obtain ⟨i, hw, en⟩ := p
    have hne : curLines.isEmpty = false := by
      cases curLines with
      | nil => simp at ht
      | cons a b => simp
    unfold sectLoop
    by_cases hbrk : hw = sectionBreakS ∨ en = sectionBreakS
    · rw [if_pos hbrk, hne]
      simp only [Bool.false_eq_true, if_false]
      obtain ⟨l, hl, h1, h2⟩ := @createSection_mem_fwd _ curType vc cc _ ht
      by_cases hv : curType = verseS
      · rw [if_pos hv]
        exact ⟨_, by simp, l, hl, h1, h2⟩
      · rw [if_neg hv]
        exact ⟨_, by simp, l, hl, h1, h2⟩
    · rw [if_neg hbrk]
      by_cases hmk : isChorusMarker hw en = true
      · rw [if_pos hmk]
        exact ih curLines chorusTypeS vc cc ht
      · rw [if_neg hmk]
        exact ih (curLines ++ [(hw, en, i)]) curType vc cc (by simp [ht])

theorem sectLoop_mem_pair {i : Nat} {hw en : Str} :
    ∀ (pairs : List (Nat × Str × Str)) (curLines : List (Str × Str × Nat))
      (curType : Str) (vc cc : Nat), (i, hw, en) ∈ pairs →
      hw ≠ sectionBreakS → en ≠ sectionBreakS → isChorusMarker hw en = false →
      ∃ sec ∈ sectLoop pairs curLines curType vc cc,
        ∃ l ∈ sec.lines, l.hawaiian_text = hw ∧ l.english_text = en := by
  intro pairs
  induction pairs with
  | nil => intro _ _ _ _ hmem; simp at hmem
  | cons p rest ih =>
    intro curLines curType vc cc hmem hnb1 hnb2 hnm
    obtain ⟨j, hw2, en2⟩ := p
    rcases List.mem_cons.mp hmem with heq | hmem2
    · obtain ⟨rfl, rfl, rfl⟩ : i = j ∧ hw = hw2 ∧ en = en2 := by
        simpa using heq
      unfold sectLoop
      rw [if_neg (by simp [hnb1, hnb2]), hnm]
      simp only [Bool.false_eq_true, if_false]
      exact sectLoop_mem_cur (t := (hw, en, i)) rest
        (curLines ++ [(hw, en, i)]) curType vc cc (by simp)
    · unfold sectLoop
      by_cases hbrk : hw2 = sectionBreakS ∨ en2 = sectionBreakS
      · rw [if_pos hbrk]
        by_cases hne : curLines.isEmpty
        · rw [if_pos hne]
          exact ih [] verseS vc cc hmem2 hnb1 hnb2 hnm
        · rw [if_neg hne]
          by_cases hv : curType = verseS
          · rw [if_pos hv]
            obtain ⟨sec, hsec, rest2⟩ := ih [] verseS (vc + 1) cc hmem2 hnb1 hnb2 hnm
            exact ⟨sec, by simp [hsec], rest2⟩
          · rw [if_neg hv]
            obtain ⟨sec, hsec, rest2⟩ := ih [] verseS vc (cc + 1) hmem2 hnb1 hnb2 hnm
            exact ⟨sec, by simp [hsec], rest2⟩
      · rw [if_neg hbrk]
        by_cases hmk : isChorusMarker hw2 en2 = true
        · rw [if_pos hmk]
          exact ih curLines chorusTypeS vc cc hmem2 hnb1 hnb2 hnm
        · rw [if_neg hmk]
          exact ih (curLines ++ [(hw2, en2, j)]) curType vc cc hmem2 hnb1 hnb2 hnm

theorem sectLoop_lines_prop (P : Str → Str → Prop) :
    ∀ (pairs : List (Nat × Str × Str)) (curLines : List (Str × Str × Nat))
      (curType : Str) (vc cc : Nat),
      (∀ t ∈ curLines, P t.1 t.2.1) →
      (∀ i hw en, (i, hw, en) ∈ pairs → hw ≠ sectionBreakS →
        en ≠ sectionBreakS → isChorusMarker hw en = false → P hw en) →
      ∀ sec ∈ sectLoop pairs curLines curType vc cc,
        ∀ l ∈ sec.lines, P l.hawaiian_text l.english_text := by
  intro pairs
  induction pairs with
  | nil =>
    intro curLines curType vc cc hcur _ sec hsec l hl
    unfold sectLoop at hsec
    split_ifs at hsec with hne
    · simp at hsec
    · simp only [List.mem_singleton] at hsec
      subst hsec
      obtain ⟨t, ht, h1, h2⟩ := createSection_mem_inv hl
      rw [h1, h2]
      exact hcur t ht
  | cons p rest ih =>
    intro curLines curType vc cc hcur hpairs sec hsec l hl
    obtain ⟨i, hw, en⟩ := p
    unfold sectLoop at hsec
    by_cases hbrk : hw = sectionBreakS ∨ en = sectionBreakS
    · rw [if_pos hbrk] at hsec
      by_cases hne : curLines.isEmpty
      · rw [if_pos hne] at hsec
        exact ih [] verseS vc cc (by simp)
          (fun j hw2 en2 hm => hpairs j hw2 en2 (by simp [hm])) sec hsec l hl
      · rw [if_neg hne] at hsec
        rcases List.mem_cons.mp hsec with hsec2 | hsec2
        · subst hsec2
          obtain ⟨t, ht, h1, h2⟩ := createSection_mem_inv hl
          rw [h1, h2]
          exact hcur t ht
        · by_cases hv : curType = verseS
          · rw [if_pos hv] at hsec2
            exact ih [] verseS (vc + 1) cc (by simp)
              (fun j hw2 en2 hm => hpairs j hw2 en2 (by simp [hm])) sec hsec2 l hl
          · rw [if_neg hv] at hsec2
            exact ih [] verseS vc (cc + 1) (by simp)
              (fun j hw2 en2 hm => hpairs j hw2 en2 (by simp [hm])) sec hsec2 l hl
    · rw [if_neg hbrk] at hsec
      by_cases hmk : isChorusMarker hw en = true
      · rw [if_pos hmk] at hsec
        exact ih curLines chorusTypeS vc cc hcur
          (fun j hw2 en2 hm => hpairs j hw2 en2 (by simp [hm])) sec hsec l hl
      · rw [if_neg hmk] at hsec
        refine ih (curLines ++ [(hw, en, i)]) curType vc cc ?_
          (fun j hw2 en2 hm => hpairs j hw2 en2 (by simp [hm])) sec hsec l hl
        intro t ht
        rcases List.mem_append.mp ht with ht2 | ht2
        · exact hcur t ht2
        · simp only [List.mem_singleton] at ht2
          subst ht2
          have hnb1 : hw ≠ sectionBreakS := fun hh => hbrk (Or.inl hh)
          have hnb2 : en ≠ sectionBreakS := fun hh => hbrk (Or.inr hh)
          exact hpairs i hw en (by simp) hnb1 hnb2 (by simpa using hmk)

/-! ### Claim C1 -/

/-- Claim C1 is false as stated: on Hawaiian input
`["E ka pua", "Hui:", "Nani wale"]` with the English side absent, the
Section Builder emits a single section of type chorus holding two lines
("E ka pua" and "Nani wale") — it does not close a first verse section at
the `Hui:` marker, because only a section-break sentinel closes a section. -/
theorem C1_counterexample :
    (structureIntoSections
        ["E ka pua".toList, "Hui:".toList, "Nani wale".toList] []).map
      (fun sec => (sec.section_type, sec.lines.length)) = [(chorusTypeS, 2)] ∧
    chorusTypeS ≠ verseS := by decide

/-- Claim C1, amended: for Hawaiian input `["E ka pua", "Hui:", "Nani wale"]`
(English absent or padded with empty strings) the builder emits one single
section of type chorus (`c1`) containing exactly the lines "E ka pua" and
"Nani wale", and emits no Line object for the `"Hui:"` marker itself; the
marker only flips the current section's type, so the first section is not
closed as a verse (closing a section requires a section-break sentinel). -/
theorem C1_chorus_marker :
    structureIntoSections
        ["E ka pua".toList, "Hui:".toList, "Nani wale".toList] [] =
      [{ section_id := "c1".toList, section_type := chorusTypeS,
         section_number := 1,
         lines := [
          { line_id := "c1.1".toList, hawaiian_text := "E ka pua".toList,
            english_text := [], line_number := 1,
            section_type := chorusTypeS, section_number := 1 },
          { line_id := "c1.2".toList, hawaiian_text := "Nani wale".toList,
            english_text := [], line_number := 2,
            section_type := chorusTypeS, section_number := 1 }] }] ∧
    structureIntoSections
        ["E ka pua".toList, "Hui:".toList, "Nani wale".toList] [[], [], []] =
      [{ section_id := "c1".toList, section_type := chorusTypeS,
         section_number := 1,
         lines := [
          { line_id := "c1.1".toList, hawaiian_text := "E ka pua".toList,
            english_text := [], line_number := 1,
            section_type := chorusTypeS, section_number := 1 },
          { line_id := "c1.2".toList, hawaiian_text := "Nani wale".toList,
            english_text := [], line_number := 2,
            section_type := chorusTypeS, section_number := 1 }] }] := by
  decide

/-! ### Claim C2 -/

/-- Claim C2 is false as stated: the line "Aloha" is neither a section-break
sentinel nor a chorus/verse marker, yet when the English side carries a
section-break sentinel at the same index, the pair is treated as a section
break and "Aloha" appears in no emitted Line (the builder emits no section
at all). -/
theorem C2_counterexample :
    structureIntoSections ["Aloha".toList] [sectionBreakS] = [] ∧
    "Aloha".toList ≠ sectionBreakS ∧
    hasMarkerSub "Aloha".toList = false ∧
    isChorusMarker "Aloha".toList sectionBreakS = false := by decide

/-- Claim C2, amended: lines are paired strictly by index up to
`max(len(hawaiian), len(english))` with a missing side read as the empty
string, and every paired line whose two sides are both distinct from the
section-break sentinel and which is not classified as a chorus marker
appears (as the pair it formed) in some emitted Line; content is dropped
exactly when its pair is consumed as a section break or chorus marker. -/
theorem C2_pairing (h e : List Str) (i : Nat)
    (hi : i < max h.length e.length)
    (hb1 : h.getD i [] ≠ sectionBreakS)
    (hb2 : e.getD i [] ≠ sectionBreakS)
    (hm : isChorusMarker (h.getD i []) (e.getD i []) = false) :
    ∃ sec ∈ structureIntoSections h e, ∃ l ∈ sec.lines,
      l.hawaiian_text = h.getD i [] ∧ l.english_text = e.getD i [] := by
  unfold structureIntoSections
  have hmem : (i, h.getD i [], e.getD i []) ∈ pairLines h e :=
    List.mem_map.mpr ⟨i, List.mem_range.mpr hi, rfl⟩
  exact sectLoop_mem_pair (pairLines h e) [] verseS 0 0 hmem hb1 hb2 hm

/-- Witness for `C2_pairing` at `h = ["Aloha"]`, `e = []`, `i = 0`. -/
theorem C2_pairing_witness :
    (0 < max (["Aloha".toList] : List Str).length ([] : List Str).length) ∧
    (∃ sec ∈ structureIntoSections ["Aloha".toList] [], ∃ l ∈ sec.lines,
      l.hawaiian_text = (["Aloha".toList] : List Str).getD 0 [] ∧
      l.english_text = ([] : List Str).getD 0 []) :=
  ⟨by decide,
   C2_pairing ["Aloha".toList] [] 0 (by decide) (by decide) (by decide)
     (by decide)⟩

/-! ### Claim C4 -/

/-- Claim C4 is false as stated: when the English sequence already carries
the `"Chorus:"` marker at the `hui:` position, the alignment fix still
inserts another `"Chorus:"` there — the source has no check for an existing
marker — so the English sequence is changed (it gains a duplicate marker)
rather than left unchanged. -/
theorem C4_counterexample :
    fixLineAlignment ["Hui:".toList] ["Chorus:".toList] =
      (["Hui:".toList], ["Chorus:".toList, "Chorus:".toList]) ∧
    (["Chorus:".toList, "Chorus:".toList] : List Str) ≠ ["Chorus:".toList] := by
  decide

/-- Claim C4, amended: the literal `"Chorus:"` is inserted into the English
sequence at position `i` exactly when `i` is the first position whose
Hawaiian line equals `"hui:"` (case-insensitive, trimmed) and `i` is within
the English sequence's bounds; the insertion is unconditional — it happens
whether or not English already has a marker there.  (When the data-specific
"E hāʻawi" patch does not fire, the result is exactly the insertion followed
by the per-line whitespace cleanup; with no `hui:` line, or a `hui:` line at
or beyond the English length, the English lines are only cleaned up.) -/
theorem C4_alignment :
    (∀ h e, h.findIdx? isHuiLine = none →
      fixLineAlignment h e = (h, e.map cleanupLine)) ∧
    (∀ h e i, h.findIdx? isHuiLine = some i → e.length ≤ i →
      fixLineAlignment h e = (h, e.map cleanupLine)) ∧
    (∀ h e i, h.findIdx? isHuiLine = some i → i < e.length →
      (decide (i + 1 < h.length) &&
        eHaawiS.isPrefixOf (h.getD (i + 1) [])) = false →
      fixLineAlignment h e = (h, (insertAt i chorusS e).map cleanupLine)) := by
  refine ⟨?_, ?_, ?_⟩
  · intro h e hnone
    unfold fixLineAlignment
    rw [hnone]
  · intro h e i hsome hle
    unfold fixLineAlignment
    rw [hsome]
    simp only []
    rw [if_neg (by omega)]
  · intro h e i hsome hlt hpatch
    unfold fixLineAlignment
    rw [hsome]
    simp only []
    rw [if_pos hlt, if_neg (by rw [hpatch]; simp)]

/-- Witness for `C4_alignment` (all three cases at concrete inputs). -/
theorem C4_alignment_witness :
    ((["x".toList] : List Str).findIdx? isHuiLine = none ∧
      fixLineAlignment ["x".toList] ["y".toList] =
        (["x".toList], ["y".toList].map cleanupLine)) ∧
    ((["Hui:".toList] : List Str).findIdx? isHuiLine = some 0 ∧
      fixLineAlignment ["Hui:".toList] [] =
        (["Hui:".toList], ([] : List Str).map cleanupLine)) ∧
    ((["Hui:".toList] : List Str).findIdx? isHuiLine = some 0 ∧
      fixLineAlignment ["Hui:".toList] ["x".toList] =
        (["Hui:".toList], (insertAt 0 chorusS ["x".toList]).map cleanupLine)) :=
  ⟨⟨by decide, C4_alignment.1 ["x".toList] ["y".toList] (by decide)⟩,
   ⟨by decide, C4_alignment.2.1 ["Hui:".toList] [] 0 (by decide) (by decide)⟩,
   ⟨by decide, C4_alignment.2.2 ["Hui:".toList] ["x".toList] 0 (by decide)
      (by decide) (by decide)⟩⟩

/-! ### Claim C7 -/

/-- Claim C7 holds: `manual_review_required` is computed as an OR of four
independent triggers — some issue of severity high or critical, score below
70, non-empty stray text, or more than five issues — and in particular a
result with score 95 but non-empty stray text is flagged. -/
theorem C7_manual_review :
    (∀ r : SongValidationResult,
      requiresManualReview r = true ↔
        ((∃ i ∈ r.validation_issues,
            i.severity = IssueSeverity.high ∨
            i.severity = IssueSeverity.critical) ∨
         r.data_quality_score < 70 ∨
         r.stray_text ≠ [] ∨
         5 < r.validation_issues.length)) ∧
    (∀ r : SongValidationResult, r.data_quality_score = 95 →
      r.stray_text ≠ [] → requiresManualReview r = true) := by
  constructor
  · intro r
    unfold requiresManualReview
    simp only [Bool.or_eq_true, decide_eq_true_eq,
      List.length_pos_iff_exists_mem, List.mem_filter, decide_eq_true_eq]
    constructor
    · rintro (((⟨i, hi, hsev⟩ | h) | ⟨a, ha⟩) | h)
      · exact Or.inl ⟨i, hi, hsev.symm⟩
      · exact Or.inr (Or.inl h)
      · exact Or.inr (Or.inr (Or.inl (List.ne_nil_of_mem ha)))
      · exact Or.inr (Or.inr (Or.inr h))
    · rintro (⟨i, hi, hsev⟩ | h | h | h)
      · exact Or.inl (Or.inl (Or.inl ⟨i, hi, hsev.symm⟩))
      · exact Or.inl (Or.inl (Or.inr h))
      · exact Or.inl (Or.inr (List.exists_mem_of_ne_nil _ h))
      · exact Or.inr h
  · intro r h95 hstray
    unfold requiresManualReview
    have : 0 < r.stray_text.length := List.length_pos.mpr hstray
    simp [this]

/-- Witness for `C7_manual_review` at a concrete result with score 95 and a
stray-text entry. -/
theorem C7_manual_review_witness :
    requiresManualReview
      { song_id := [], song_title := [], source_file := [],
        hawaiian_lines := [], english_lines := [],
        data_quality_score := 95, stray_text := ["x".toList] } = true :=
  C7_manual_review.2 _ (by decide) (by decide)

/-! ### Claim C3 -/

/-- The segment `"wau iā ʻoe"` (macron `ā` U+0101, okina U+02BB). -/
def wauIaOe : Str :=
  ['w', 'a', 'u', ' ', 'i', Char.ofNat 0x101, ' ', Char.ofNat 0x2bb, 'o', 'e']

/-- Claim C3 is false as stated: the segment `"say hui: there"` starts with a
lowercase character, is not the section-break sentinel and does not begin
with `"hui:"` or `"chorus:"`, yet the joining pass does not append it —
the source checks marker *containment* (`marker in next_segment.lower()`),
not a prefix. -/
theorem C3_counterexample :
    joinPass ["Ke aloha".toList, "say hui: there".toList] =
      ["Ke aloha".toList, "say hui: there".toList] ∧
    "say hui: there".toList ≠ sectionBreakS ∧
    pyIsLower 's' = true ∧
    "hui:".toList.isPrefixOf (lowerStr "say hui: there".toList) = false ∧
    "chorus:".toList.isPrefixOf (lowerStr "say hui: there".toList) = false := by
  decide

/-- Claim C3, amended: a segment is appended (joined with a single space) to
the line in progress if and only if its first character is lowercase, it is
not the section-break sentinel, and its lowercased text does not *contain*
`"hui:"` or `"chorus:"` anywhere (containment, not merely a prefix test);
in particular `["Ke aloha", "wau iā ʻoe"]` yields the single line
`"Ke aloha wau iā ʻoe"` and `["Ke aloha", "Pili mau"]` yields two lines. -/
theorem C3_continuation :
    (∀ next : Str, continuesLine next =
      (decide (next ≠ sectionBreakS) &&
       !(containsSub "hui:".toList (lowerStr next) ||
         containsSub "chorus:".toList (lowerStr next)) &&
       (match next with
        | [] => false
        | c :: _ => pyIsLower c))) ∧
    (∀ cur next rest, continuesLine next = true →
      absorb cur (next :: rest) = absorb (cur ++ ' ' :: next) rest) ∧
    (∀ cur next rest, continuesLine next = false →
      absorb cur (next :: rest) = (cur, next :: rest)) ∧
    joinPass ["Ke aloha".toList, wauIaOe] =
      ["Ke aloha".toList ++ ' ' :: wauIaOe] ∧
    joinPass ["Ke aloha".toList, "Pili mau".toList] =
      ["Ke aloha".toList, "Pili mau".toList] := by
  refine ⟨?_, ?_, ?_, by decide, by decide⟩
  · intro next
    unfold continuesLine hasMarkerSub
    split_ifs with h1 h2
    · simp [h1]
    · have h2b : (containsSub ['h', 'u', 'i', ':'] (lowerStr next) ||
          containsSub ['c', 'h', 'o', 'r', 'u', 's', ':'] (lowerStr next)) =
          true := by simpa using h2
      simp [h2b]
    · have h2b : (containsSub ['h', 'u', 'i', ':'] (lowerStr next) ||
          containsSub ['c', 'h', 'o', 'r', 'u', 's', ':'] (lowerStr next)) =
          false := by simpa using h2
      simp [h1, h2b]
  · intro cur next rest h
    simp [absorb, h]
  · intro cur next rest h
    simp [absorb, h]

/-- Witness for `C3_continuation` (both directions of the decision at
concrete segments). -/
theorem C3_continuation_witness :
    (continuesLine "wau".toList = true ∧
      absorb "Ke".toList ["wau".toList] =
        absorb ("Ke".toList ++ ' ' :: "wau".toList) []) ∧
    (continuesLine "Pili".toList = false ∧
      absorb "Ke".toList ["Pili".toList] = ("Ke".toList, ["Pili".toList])) :=
  ⟨⟨by decide, C3_continuation.2.1 "Ke".toList "wau".toList [] (by decide)⟩,
   ⟨by decide, C3_continuation.2.2.1 "Ke".toList "Pili".toList [] (by decide)⟩⟩

/-! ### Claim C6 -/

theorem foldl_sub_penalty (issues : List ValidationIssue) :
    ∀ a : Int,
      issues.foldl (fun s i => s - severityPenalty i.severity) a =
        a - (issues.map (fun i => severityPenalty i.severity)).sum := by
  induction issues with
  | nil => intro a; simp
  | cons i rest ih =>
    intro a
    simp only [List.foldl_cons, List.map_cons, List.sum_cons, ih]
    ring

theorem penalty_sum_by_counts (issues : List ValidationIssue) :
    (issues.map (fun i => severityPenalty i.severity)).sum =
      25 * ((issues.filter
          (fun i => i.severity = IssueSeverity.critical)).length : Int) +
      15 * ((issues.filter
          (fun i => i.severity = IssueSeverity.high)).length : Int) +
      8 * ((issues.filter
          (fun i => i.severity = IssueSeverity.medium)).length : Int) +
      3 * ((issues.filter
          (fun i => i.severity = IssueSeverity.low)).length : Int) := by
  induction issues with
  | nil => simp
  | cons i rest ih =>
    simp only [List.map_cons, List.sum_cons, List.filter_cons, ih]
    cases hs : i.severity <;>
      simp [severityPenalty, hs, List.length_cons] <;> ring

theorem joinSpace_mem {c : Char} :
    ∀ ls : List Str, c ∈ joinSpace ls → (∃ l ∈ ls, c ∈ l) ∨ c = ' ' := by
  intro ls
  induction ls with
  | nil => intro h; simp [joinSpace] at h
  | cons l rest ih =>
    intro h
    cases rest with
    | nil =>
      simp only [joinSpace] at h
      exact Or.inl ⟨l, by simp, h⟩
    | cons l2 rest2 =>
      simp only [joinSpace, List.mem_append, List.mem_cons] at h
      rcases h with h | h | h
      · exact Or.inl ⟨l, by simp, h⟩
      · exact Or.inr h
      · rcases ih h with ⟨l3, hl3, hc⟩ | h2
        · exact Or.inl ⟨l3, by simp [hl3], hc⟩
        · exact Or.inr h2

/-- Claim C6 holds: the quality score starts at 100, drops 25/15/8/3 per
critical/high/medium/low issue, floored at 0; and an input with 5 Hawaiian
lines, 3 English lines and no other defects yields exactly one
`line_count_mismatch` issue of severity high and a score of exactly 85. -/
theorem C6_scoring :
    (∀ r : SongValidationResult,
      calculateQualityScore r = max 0 (100 -
        (25 * ((r.validation_issues.filter
            (fun i => i.severity = IssueSeverity.critical)).length : Int) +
         15 * ((r.validation_issues.filter
            (fun i => i.severity = IssueSeverity.high)).length : Int) +
         8 * ((r.validation_issues.filter
            (fun i => i.severity = IssueSeverity.medium)).length : Int) +
         3 * ((r.validation_issues.filter
            (fun i => i.severity = IssueSeverity.low)).length : Int)))) ∧
    (∀ sd : SongData,
      sd.hawaiian_lines.length = 5 →
      sd.english_lines.length = 3 →
      (pyStrip sd.composer).isEmpty = false →
      (pyStrip sd.lyricist).isEmpty = false →
      ((pyStrip sd.translator).isEmpty && sd.has_english_translation) = false →
      sd.has_verse_structure = true →
      sd.stray_text = [] →
      (∀ l ∈ sd.hawaiian_lines, ∀ c ∈ l, c.toNat ≤ 65535) →
      (∀ l ∈ sd.english_lines, ∀ c ∈ l, c.toNat ≤ 65535) →
      (validateSong sd).validation_issues =
        [{ issue_type := IssueType.line_count_mismatch,
           severity := IssueSeverity.high,
           description := "Hawaiian lines (5) don".toList ++ apos ::
             "t match English lines (3)".toList,
           location := "lyrics section".toList,
           suggested_action :=
             some "Manual review required to align translations".toList }] ∧
      (validateSong sd).data_quality_score = 85) := by
  constructor
  · intro r
    unfold calculateQualityScore
    rw [foldl_sub_penalty, penalty_sum_by_counts]
  · intro sd h5 h3 hc hl ht hv hs hbmp1 hbmp2
    have he3 : sd.english_lines.isEmpty = false := by
      cases hh : sd.english_lines with
      | nil => rw [hh] at h3; simp at h3
      | cons a b => simp
    have henc : ∀ c ∈ joinSpace (sd.hawaiian_lines ++ sd.english_lines),
        ¬ (65535 < c.toNat) := by
      intro c hcmem
      rcases joinSpace_mem _ hcmem with ⟨l, hlm, hcm⟩ | hsp
      · rcases List.mem_append.mp hlm with hm | hm
        · have := hbmp1 l hm c hcm; omega
        · have := hbmp2 l hm c hcm; omega
      · subst hsp; decide
    set r3 := validateContentQuality sd (validateLineStructure sd
      (validateAttribution sd
        { song_id := sd.id, song_title := sd.title,
          source_file := sd.source_file,
          hawaiian_lines := [], english_lines := [] })) with hr3
    have hproj : (validateSong sd).validation_issues = r3.validation_issues :=
      rfl
    have hscore : (validateSong sd).data_quality_score =
        calculateQualityScore r3 := rfl
    have hstage : r3.validation_issues =
        [{ issue_type := IssueType.line_count_mismatch,
           severity := IssueSeverity.high,
           description := "Hawaiian lines (5) don".toList ++ apos ::
             "t match English lines (3)".toList,
           location := "lyrics section".toList,
           suggested_action :=
             some "Manual review required to align translations".toList }] := by
      rw [hr3]
      unfold validateAttribution validateLineStructure validateContentQuality
      have hanyf : (joinSpace (sd.hawaiian_lines ++ sd.english_lines)).any
          (fun c => decide (65535 < c.toNat)) = false := by
        rw [List.any_eq_false]
        intro c hcc
        simpa using henc c hcc
      simp [hc, hl, ht, hv, hs, he3, h5, h3, hanyf]
      decide
    exact ⟨by rw [hproj, hstage], by
      rw [hscore]
      unfold calculateQualityScore
      rw [hstage]
      decide⟩

/-- Witness for `C6_scoring` at a concrete 5-line / 3-line input. -/
theorem C6_scoring_witness :
    (validateSong
      { id := [], title := [], source_file := [],
        composer := "C".toList, lyricist := "L".toList,
        translator := "T".toList,
        hawaiian_lines := ["a".toList, "b".toList, "c".toList, "d".toList,
          "e".toList],
        english_lines := ["x".toList, "y".toList, "z".toList],
        has_verse_structure := true, has_english_translation := true,
        stray_text := [] }).validation_issues =
      [{ issue_type := IssueType.line_count_mismatch,
         severity := IssueSeverity.high,
         description := "Hawaiian lines (5) don".toList ++ apos ::
           "t match English lines (3)".toList,
         location := "lyrics section".toList,
         suggested_action :=
           some "Manual review required to align translations".toList }] ∧
    (validateSong
      { id := [], title := [], source_file := [],
        composer := "C".toList, lyricist := "L".toList,
        translator := "T".toList,
        hawaiian_lines := ["a".toList, "b".toList, "c".toList, "d".toList,
          "e".toList],
        english_lines := ["x".toList, "y".toList, "z".toList],
        has_verse_structure := true, has_english_translation := true,
        stray_text := [] }).data_quality_score = 85 :=
  C6_scoring.2 _ (by decide) (by decide) (by decide) (by decide) (by decide)
    (by decide) (by decide) (by decide) (by decide)

/-! ### Claim C10 -/

theorem flattenLines_length (sections : List SongSection) :
    (flattenLines sections).1.length = (flattenLines sections).2.length := by
  unfold flattenLines
  induction sections with
  | nil => simp
  | cons sec rest ih => simp [ih]

theorem validateAttribution_issue_types (sd : SongData)
    (r : SongValidationResult) (iss : ValidationIssue)
    (h : iss ∈ (validateAttribution sd r).validation_issues) :
    iss ∈ r.validation_issues ∨
      iss.issue_type = IssueType.no_composer ∨
      iss.issue_type = IssueType.no_lyricist ∨
      iss.issue_type = IssueType.no_translator := by
  unfold validateAttribution at h
  simp only [] at h
  split_ifs at h <;> aesop

theorem validateLineStructure_issue_types (sd : SongData)
    (r : SongValidationResult) (iss : ValidationIssue)
    (h : iss ∈ (validateLineStructure sd r).validation_issues) :
    iss ∈ r.validation_issues ∨
      (iss.issue_type = IssueType.line_count_mismatch ∧
        sd.hawaiian_lines.length ≠ sd.english_lines.length) ∨
      (iss.issue_type = IssueType.missing_translation ∧
        sd.hawaiian_lines.isEmpty = false ∧ sd.english_lines.isEmpty = true) ∨
      iss.issue_type = IssueType.no_verse_chorus_structure := by
  unfold validateLineStructure at h
  simp only [] at h
  split_ifs at h <;> aesop

theorem validateContentQuality_issue_types (sd : SongData)
    (r : SongValidationResult) (iss : ValidationIssue)
    (h : iss ∈ (validateContentQuality sd r).validation_issues) :
    iss ∈ r.validation_issues ∨
      iss.issue_type = IssueType.unidentifiable_text ∨
      iss.issue_type = IssueType.encoding_issues := by
  unfold validateContentQuality at h
  simp only [] at h
  split_ifs at h <;> aesop

/-- Claim C10 holds: the flattening step of `_prepare_validation_data`
appends exactly one Hawaiian and one English entry per Line, so the two
flattened lists always have equal length; consequently, through the
`parse_file` pipeline the `line_count_mismatch` issue is never emitted and
the `missing_translation` issue is never emitted either (its guard needs a
non-empty Hawaiian list with an empty English list, impossible at equal
lengths) — in particular a Hawaiian-only song whose English entries are all
empty strings is not flagged as missing its translation. -/
theorem C10_flattened_validation (song : ParsedSong) :
    (prepareValidationData song).hawaiian_lines.length =
      (prepareValidationData song).english_lines.length ∧
    ∀ iss ∈ (validateSong (prepareValidationData song)).validation_issues,
      iss.issue_type ≠ IssueType.line_count_mismatch ∧
      iss.issue_type ≠ IssueType.missing_translation := by
  have hlen : (prepareValidationData song).hawaiian_lines.length =
      (prepareValidationData song).english_lines.length := by
    unfold prepareValidationData
    exact flattenLines_length song.sections
  refine ⟨hlen, ?_⟩
  intro iss hmem
  have hmem2 : iss ∈ (validateContentQuality (prepareValidationData song)
      (validateLineStructure (prepareValidationData song)
        (validateAttribution (prepareValidationData song)
          { song_id := (prepareValidationData song).id,
            song_title := (prepareValidationData song).title,
            source_file := (prepareValidationData song).source_file,
            hawaiian_lines := [],
            english_lines := [] }))).validation_issues := hmem
  rcases validateContentQuality_issue_types _ _ _ hmem2 with h2 | h2 | h2
  · rcases validateLineStructure_issue_types _ _ _ h2 with h3 | h3 | h3 | h3
    · rcases validateAttribution_issue_types _ _ _ h3 with h4 | h4 | h4 | h4
      · simp at h4
      · rw [h4]; exact ⟨by simp, by simp⟩
      · rw [h4]; exact ⟨by simp, by simp⟩
      · rw [h4]; exact ⟨by simp, by simp⟩
    · exact absurd hlen h3.2
    · obtain ⟨_, hne, hemp⟩ := h3
      have h1 : (prepareValidationData song).hawaiian_lines ≠ [] := by
        intro hh
        rw [hh] at hne
        simp at hne
      have h0 : (prepareValidationData song).english_lines = [] :=
        List.isEmpty_iff.mp hemp
      rw [h0] at hlen
      simp only [List.length_nil] at hlen
      exact absurd (List.eq_nil_of_length_eq_zero hlen) h1
    · rw [h3]; exact ⟨by simp, by simp⟩
  · rw [h2]; exact ⟨by simp, by simp⟩
  · rw [h2]; exact ⟨by simp, by simp⟩

/-- A concrete Hawaiian-only parsed song (English entries empty). -/
def hawaiianOnlySong : ParsedSong :=
  { title := "T".toList
    composer := []
    translator := []
    source_file := []
    sections := [
      { section_id := "v1".toList
        section_type := verseS
        section_number := 1
        lines := [
          { line_id := "v1.1".toList
            hawaiian_text := "Aloha".toList
            english_text := []
            line_number := 1
            section_type := verseS
            section_number := 1 }] }]
    metadata :=
      { source_file := []
        title := "T".toList
        composer := []
        translator := []
        stray_text := [] }
    stray_text := [] }

/-- Witness for `C10_flattened_validation` at a concrete Hawaiian-only song
(whose validation does produce issues — none of the two excluded kinds). -/
theorem C10_flattened_validation_witness :
    (validateSong
        (prepareValidationData hawaiianOnlySong)).validation_issues ≠ [] ∧
    ∀ iss ∈ (validateSong
        (prepareValidationData hawaiianOnlySong)).validation_issues,
      iss.issue_type ≠ IssueType.line_count_mismatch ∧
      iss.issue_type ≠ IssueType.missing_translation :=
  ⟨by decide, (C10_flattened_validation hawaiianOnlySong).2⟩

/-! ### Claim C9 -/

/-- The cell-to-sections pipeline of `parse_file` (both Line Extractor runs,
the alignment fix, then the Section Builder). -/
def pipelineSections (hawaiianCell englishCell : Str) : List SongSection :=
  let hawaiianLines := extractLines hawaiianCell true
  let englishLines := extractLines englishCell false
  let fixed := fixLineAlignment hawaiianLines englishLines
  structureIntoSections fixed.1 fixed.2

theorem fixLineAlignment_fst (h e : List Str) :
    (fixLineAlignment h e).1 = h := rfl

theorem getD_mem_of_lt {l : List Str} {i : Nat} (h : i < l.length) :
    l.getD i [] ∈ l := by
  rw [List.getD_eq_getElem l [] h]
  exact List.getElem_mem h

/-- Claim C9 is false as stated: an English cell whose first segment is a
non-breaking-space entity (`&nbsp;`) survives extraction as a line, is then
blanked by the alignment pass's whitespace cleanup, and — paired against a
padded (absent) Hawaiian side — is emitted as a Line with hawaiian_text and
english_text both empty. -/
theorem C9_counterexample :
    pipelineSections [] "&nbsp;<br>Alo<br>".toList =
      [{ section_id := "v1".toList, section_type := verseS,
         section_number := 1,
         lines := [
          { line_id := "v1.1".toList, hawaiian_text := [],
            english_text := [], line_number := 1,
            section_type := verseS, section_number := 1 },
          { line_id := "v1.2".toList, hawaiian_text := [],
            english_text := "Alo".toList, line_number := 2,
            section_type := verseS, section_number := 1 }] }] ∧
    (∃ sec ∈ pipelineSections [] "&nbsp;<br>Alo<br>".toList,
      ∃ l ∈ sec.lines, l.hawaiian_text = [] ∧ l.english_text = []) := by
  decide

set_option maxHeartbeats 1000000

/-- Claim C9, amended: every Line in every Section of a pipeline-emitted
ParsedSong has at least one of hawaiian_text, english_text non-empty,
provided no English line is left fully blank by the alignment pass's
whitespace cleanup (a whitespace-only English segment — e.g. a decoded
non-breaking-space entity — is blanked by that cleanup and, paired against
a padded Hawaiian side, yields a Line with both fields empty).  A fully
empty segment is indeed dropped during extraction on both sides. -/
theorem C9_nonempty_lines (hawaiianCell englishCell : Str)
    (hcln : ∀ l ∈ (fixLineAlignment (extractLines hawaiianCell true)
      (extractLines englishCell false)).2, l ≠ []) :
    ∀ sec ∈ pipelineSections hawaiianCell englishCell,
      ∀ l ∈ sec.lines, l.hawaiian_text ≠ [] ∨ l.english_text ≠ [] := by
  unfold pipelineSections structureIntoSections
  apply sectLoop_lines_prop (fun hw en => hw ≠ [] ∨ en ≠ []) _ _ _ _ _
    (by simp)
  intro i hw en hmem hnb1 _ _
  unfold pairLines at hmem
  obtain ⟨j, hj, heq⟩ := List.mem_map.mp hmem
  rw [List.mem_range] at hj
  have hw_eq : hw = (extractLines hawaiianCell true).getD j [] := by
    have := congrArg (fun t => t.2.1) heq
    simpa [fixLineAlignment_fst] using this.symm
  have en_eq : en = (fixLineAlignment (extractLines hawaiianCell true)
      (extractLines englishCell false)).2.getD j [] := by
    have := congrArg (fun t => t.2.2) heq
    simpa using this.symm
  subst hw_eq; subst en_eq
  by_cases hi : j < (extractLines hawaiianCell true).length
  · left
    exact extractLines_ne_nil hawaiianCell true _ (getD_mem_of_lt hi)
  · right
    have hie : j < (fixLineAlignment (extractLines hawaiianCell true)
        (extractLines englishCell false)).2.length := by
      rcases lt_max_iff.mp hj with hcase | hcase
      · exact absurd hcase hi
      · exact hcase
    exact hcln _ (getD_mem_of_lt hie)

set_option maxHeartbeats 200000

/-- Witness for `C9_nonempty_lines` at a concrete bilingual cell pair. -/
theorem C9_nonempty_lines_witness :
    (∀ l ∈ (fixLineAlignment (extractLines "Aloha<br>".toList true)
      (extractLines "Love<br>".toList false)).2, l ≠ []) ∧
    ∀ sec ∈ pipelineSections "Aloha<br>".toList "Love<br>".toList,
      ∀ l ∈ sec.lines, l.hawaiian_text ≠ [] ∨ l.english_text ≠ [] :=
  ⟨by decide, C9_nonempty_lines "Aloha<br>".toList "Love<br>".toList
    (by decide)⟩

/-! ### Claim C5: support lemmas -/

theorem suffix_append_cases {u₂ x y : Str} (h : u₂.IsSuffix (x ++ y)) :
    u₂.IsSuffix y ∨ ∃ x₂, x₂.IsSuffix x ∧ x₂ ≠ [] ∧ u₂ = x₂ ++ y := by
  induction x with
  | nil => exact Or.inl (by simpa using h)
  | cons c x' ih =>
    rw [List.cons_append, List.suffix_cons_iff] at h
    rcases h with h | h
    · exact Or.inr ⟨c :: x', List.suffix_refl _, by simp, by simpa using h⟩
    · rcases ih h with h2 | ⟨x₂, hs, hne, heq⟩
      · exact Or.inl h2
      · exact Or.inr ⟨x₂, hs.trans (List.suffix_cons c x'), hne, heq⟩

theorem tryChorusFont_head2 {c : Char} {s : Str} (h : c ≠ 'f') :
    tryChorusFont ('<' :: c :: s) = none := by
  unfold tryChorusFont
  rw [show "<font".toList = '<' :: 'f' :: "ont".toList from rfl]
  simp [matchLit, Ne.symm h]

theorem tryFontPair_head2 {c : Char} {s : Str} (h : c ≠ '/') :
    tryFontPair ('<' :: c :: s) = none := by
  unfold tryFontPair
  rw [show "</font>".toList = '<' :: '/' :: "font>".toList from rfl]
  simp [matchLit, Ne.symm h]

theorem tryPBreak_head2 {c : Char} {s : Str} (h : c ≠ '/') :
    tryPBreak ('<' :: c :: s) = none := by
  unfold tryPBreak
  rw [show "</p>".toList = '<' :: '/' :: "p>".toList from rfl]
  simp [matchLit, Ne.symm h]

theorem tryFontAny_br (s : Str) : tryFontAny ('<' :: 'b' :: s) = none := by
  unfold tryFontAny tryTagTail
  simp [matchLit]

theorem tryPTag_br (s : Str) : tryPTag ('<' :: 'b' :: s) = none := by
  unfold tryPTag tryTagTail
  simp [matchLit]

/-- A matcher whose matches can only start at `'<'` never fires inside a
`'<'`-free region. -/
theorem subst_append_of_no_lt (try_ : Str → Option (Str × Str))
    (hhead : ∀ c s, c ≠ '<' → try_ (c :: s) = none)
    (u w : Str) (hu : ∀ c ∈ u, c ≠ '<') :
    subst try_ (u ++ w) = u ++ subst try_ w := by
  apply subst_append_of_no_match
  intro u₂ hne hsuf
  cases u₂ with
  | nil => exact absurd rfl hne
  | cons c rest =>
    exact hhead c (rest ++ w) (hu c (hsuf.subset (by simp)))

theorem subst_eq_self_of_no_lt (try_ : Str → Option (Str × Str))
    (hhead : ∀ c s, c ≠ '<' → try_ (c :: s) = none)
    (x : Str) (hx : ∀ c ∈ x, c ≠ '<') :
    subst try_ x = x := by
  have := subst_append_of_no_lt try_ hhead x [] hx
  simpa using this

theorem pyUnescape_no_amp (x : Str) (hx : ∀ c ∈ x, c ≠ '&') :
    pyUnescape x = x := by
  unfold pyUnescape
  apply subst_eq_self_of_no_match
  intro u₂ hne hsuf
  cases u₂ with
  | nil => exact absurd rfl hne
  | cons c rest =>
    exact tryEntity_head (hx c (hsuf.subset (by simp)))

theorem tryChorusFont_font_case (attrs b : Str)
    (hat : ∀ c ∈ attrs, c ≠ '>') (hb : ∀ c ∈ b, c ≠ '<') :
    tryChorusFont ("<font".toList ++ (attrs ++ '>' :: (b ++ "<br>".toList))) =
      none := by
  unfold tryChorusFont
  rw [matchLit_append "<font".toList (attrs ++ '>' :: (b ++ "<br>".toList))]
  simp only []
  rw [dropWhile_ne_append '>' attrs (b ++ "<br>".toList) hat]
  simp only []
  cases hm : matchLit "Chorus:<br>".toList (b ++ "<br>".toList) with
  | none => simp
  | some r3 =>
    have hdec := matchLit_eq_some hm
    have hlen : b.length = r3.length + 7 := by
      simpa using congrArg List.length hdec
    have hb7 : ¬ 7 < b.length := by
      intro hlt
      have h7 := congrArg (fun l => l[7]?) hdec
      simp only [List.getElem?_append] at h7
      rw [if_pos hlt,
        if_pos (by decide : (7 : Nat) < "Chorus:<br>".toList.length)] at h7
      have hsome : b[7]? = some '<' := by
        rw [h7]
        decide
      have heq : b[7]? = some b[7] := List.getElem?_eq_getElem hlt
      rw [heq] at hsome
      have hgot : b[7] = '<' := Option.some.inj hsome
      exact hb '<' (hgot ▸ List.getElem_mem hlt) rfl
    have hr3 : r3 = [] := by
      have : r3.length = 0 := by omega
      exact List.eq_nil_of_length_eq_zero this
    subst hr3
    simp only []
    rw [show skipWs ([] : Str) = [] from rfl,
      matchLit_nil_of_ne (by decide : "</font>".toList ≠ [])]

/-- No `'<'`-anchored matcher fires anywhere in `b ++ "<br>"` when `b` is
`'<'`-free and the matcher rejects `"<br>"` itself. -/
theorem no_match_suffix_b_br (try_ : Str → Option (Str × Str))
    (hhead : ∀ c s, c ≠ '<' → try_ (c :: s) = none)
    (b : Str) (hb : ∀ c ∈ b, c ≠ '<')
    (hbr : try_ "<br>".toList = none) :
    ∀ u₂, u₂ ≠ [] → u₂.IsSuffix (b ++ "<br>".toList) → try_ u₂ = none := by
  intro u₂ hne hsuf
  rcases suffix_append_cases hsuf with h1 | ⟨b₂, hs, hne2, rfl⟩
  · have hmem : u₂ ∈ ("<br>".toList).tails := (List.mem_tails _ _).mpr h1
    have henum : ("<br>".toList).tails =
        ["<br>".toList, "br>".toList, "r>".toList, ">".toList, []] := by decide
    rw [henum] at hmem
    simp only [List.mem_cons, List.not_mem_nil, or_false] at hmem
    rcases hmem with rfl | rfl | rfl | rfl | rfl
    · exact hbr
    · exact hhead 'b' _ (by decide)
    · exact hhead 'r' _ (by decide)
    · exact hhead '>' _ (by decide)
    · exact absurd rfl hne
  · cases b₂ with
    | nil => exact absurd rfl hne2
    | cons c t =>
      exact hhead c _ (hb c (hs.subset (by simp)))

/-- Stage 1 of the English font handling is the identity on the
`text</font><font attrs>text<br>` template. -/
theorem chorusFont_template_id (a attrs b : Str)
    (ha : ∀ c ∈ a, c ≠ '<') (hb : ∀ c ∈ b, c ≠ '<')
    (hat1 : ∀ c ∈ attrs, c ≠ '<') (hat2 : ∀ c ∈ attrs, c ≠ '>') :
    subst tryChorusFont
      (a ++ ("</font>".toList ++ ("<font".toList ++
        (attrs ++ '>' :: (b ++ "<br>".toList))))) =
      a ++ ("</font>".toList ++ ("<font".toList ++
        (attrs ++ '>' :: (b ++ "<br>".toList)))) := by
  apply subst_eq_self_of_no_match
  intro u₂ hne hsuf
  rcases suffix_append_cases hsuf with h1 | ⟨a₂, hs, hne2, rfl⟩
  · rcases suffix_append_cases h1 with h2 | ⟨f₂, hf, hfne, rfl⟩
    · rcases suffix_append_cases h2 with h3 | ⟨g₂, hg, hgne, rfl⟩
      · rcases suffix_append_cases h3 with h4 | ⟨t₂, ht, htne, rfl⟩
        · rw [List.suffix_cons_iff] at h4
          rcases h4 with rfl | h5
          · exact tryChorusFont_head (by decide)
          · exact no_match_suffix_b_br tryChorusFont
              (fun c s hc => tryChorusFont_head hc) b hb
              (tryChorusFont_head2 (by decide)) u₂ hne h5
        · cases t₂ with
          | nil => exact absurd rfl htne
          | cons c t =>
            exact tryChorusFont_head (hat1 c (ht.subset (by simp)))
      · have hmem : g₂ ∈ ("<font".toList).tails := (List.mem_tails _ _).mpr hg
        have henum : ("<font".toList).tails =
            ["<font".toList, "font".toList, "ont".toList, "nt".toList,
             "t".toList, []] := by decide
        rw [henum] at hmem
        simp only [List.mem_cons, List.not_mem_nil, or_false] at hmem
        rcases hmem with rfl | rfl | rfl | rfl | rfl | rfl
        · exact tryChorusFont_font_case attrs b hat2 hb
        · exact tryChorusFont_head (by decide)
        · exact tryChorusFont_head (by decide)
        · exact tryChorusFont_head (by decide)
        · exact tryChorusFont_head (by decide)
        · exact absurd rfl hgne
    · have hmem : f₂ ∈ ("</font>".toList).tails := (List.mem_tails _ _).mpr hf
      have henum : ("</font>".toList).tails =
          ["</font>".toList, "/font>".toList, "font>".toList, "ont>".toList,
           "nt>".toList, "t>".toList, ">".toList, []] := by decide
      rw [henum] at hmem
      simp only [List.mem_cons, List.not_mem_nil, or_false] at hmem
      rcases hmem with rfl | rfl | rfl | rfl | rfl | rfl | rfl | rfl
      · exact tryChorusFont_head2 (by decide)
      · exact tryChorusFont_head (by decide)
      · exact tryChorusFont_head (by decide)
      · exact tryChorusFont_head (by decide)
      · exact tryChorusFont_head (by decide)
      · exact tryChorusFont_head (by decide)
      · exact tryChorusFont_head (by decide)
      · exact absurd rfl hfne
  · cases a₂ with
    | nil => exact absurd rfl hne2
    | cons c t =>
      exact tryChorusFont_head (ha c (hs.subset (by simp)))

theorem tryFontPair_match (attrs rest : Str) (hat : ∀ c ∈ attrs, c ≠ '>') :
    tryFontPair ("</font>".toList ++ ("<font".toList ++ (attrs ++ '>' :: rest))) =
      some (" ".toList, rest) := by
  unfold tryFontPair
  rw [matchLit_append "</font>".toList ("<font".toList ++ (attrs ++ '>' :: rest))]
  simp only []
  rw [show ("<font".toList ++ (attrs ++ '>' :: rest)) =
    '<' :: ("font".toList ++ (attrs ++ '>' :: rest)) from rfl]
  rw [skipWs_of_head_not_space '<' _ (by decide)]
  rw [show ('<' :: ("font".toList ++ (attrs ++ '>' :: rest))) =
    "<font".toList ++ (attrs ++ '>' :: rest) from rfl]
  rw [matchLit_append "<font".toList (attrs ++ '>' :: rest)]
  simp only []
  rw [dropWhile_ne_append '>' attrs rest hat]
  rfl

/-- A `'<'`-anchored matcher is inert on `text1 ␣ text2<br>` when the texts
are `'<'`-free and it rejects `"<br>"`. -/
theorem subst_eq_self_text_br (try_ : Str → Option (Str × Str))
    (hhead : ∀ c s, c ≠ '<' → try_ (c :: s) = none)
    (a b : Str) (ha : ∀ c ∈ a, c ≠ '<') (hb : ∀ c ∈ b, c ≠ '<')
    (hbr : try_ "<br>".toList = none) :
    subst try_ (a ++ ' ' :: (b ++ "<br>".toList)) =
      a ++ ' ' :: (b ++ "<br>".toList) := by
  apply subst_eq_self_of_no_match
  intro u₂ hne hsuf
  rcases suffix_append_cases hsuf with h1 | ⟨a₂, hs, hne2, rfl⟩
  · rw [List.suffix_cons_iff] at h1
    rcases h1 with rfl | h2
    · exact hhead ' ' _ (by decide)
    · exact no_match_suffix_b_br try_ hhead b hb hbr u₂ hne h2
  · cases a₂ with
    | nil => exact absurd rfl hne2
    | cons c t =>
      exact hhead c _ (ha c (hs.subset (by simp)))

theorem splitRe_ne_nil (try_ : Str → Option Str) :
    ∀ fuel s, splitFuel try_ fuel s ≠ [] := by
  intro fuel
  induction fuel with
  | zero => intro s; cases s <;> simp [splitFuel]
  | succ f ih =>
    intro s
    cases s with
    | nil => simp [splitFuel]
    | cons c rest =>
      simp only [splitFuel]
      cases try_ (c :: rest) with
      | some rem => simp
      | none =>
        simp only []
        cases h : splitFuel try_ f rest with
        | nil => exact absurd h (ih rest)
        | cons seg segs => simp [consHead]

theorem splitRe_append_of_no_match (try_ : Str → Option Str)
    (u w : Str)
    (h : ∀ u₂, u₂ ≠ [] → u₂.IsSuffix u → try_ (u₂ ++ w) = none) :
    splitRe try_ (u ++ w) =
      (u ++ (splitRe try_ w).headD []) :: (splitRe try_ w).tail := by
  induction u with
  | nil =>
    simp only [List.nil_append]
    cases hsp : splitRe try_ w with
    | nil => exact absurd hsp (splitRe_ne_nil try_ w.length w)
    | cons seg segs => simp
  | cons c rest ih =>
    have hfail : try_ (c :: (rest ++ w)) = none := by
      have := h (c :: rest) (by simp) (List.suffix_refl _)
      simpa using this
    have htail := ih (fun u₂ hne hsuf => h u₂ hne (hsuf.trans
      (List.suffix_cons c rest)))
    rw [List.cons_append, splitRe_cons_none try_ _ _ hfail, htail]
    simp [consHead]

/-! ### Claim C5 -/

/-- Claim C5 is false as stated: in the *Hawaiian* column no font handling
runs at all — the `</font><font ...>` pair is stripped by the generic tag
removal with no space inserted, fusing the adjacent words ("Alohano more"
instead of "Aloha no more"); the collapse-to-a-space only happens for the
English column. -/
theorem C5_counterexample :
    extractLines "Aloha</font><font color=\"x\">no more<br>".toList true =
      ["Alohano more".toList] ∧
    "Alohano more".toList ≠ "Aloha no more".toList := by decide

/-- Claim C5, amended and restricted to the English column: every
`</font><font ...>` sequence is collapsed into a single space (each
occurrence is replaced by `" "` with scanning continuing to the right, so
all later occurrences collapse too), and a sentence wrapped in adjacent
font tags followed by text and a `<br>` is emitted as one unfragmented
line; in the Hawaiian column the tags are stripped with no space. -/
theorem C5_font_collapse :
    (∀ a attrs b : Str, (∀ c ∈ a, c ≠ '<') → (∀ c ∈ attrs, c ≠ '>') →
      subst tryFontPair
        (a ++ ("</font>".toList ++ ("<font".toList ++ (attrs ++ '>' :: b)))) =
        a ++ ' ' :: subst tryFontPair b) ∧
    (∀ a attrs b : Str,
      (∀ c ∈ a, c ≠ '<' ∧ c ≠ '&') →
      (∀ c ∈ b, c ≠ '<' ∧ c ≠ '&') →
      (∀ c ∈ attrs, c ≠ '<' ∧ c ≠ '>') →
      a ≠ [] →
      pyStrip (a ++ ' ' :: b) = a ++ ' ' :: b →
      a ++ ' ' :: b ≠ sectionBreakS →
      extractLines
        (a ++ ("</font>".toList ++ ("<font".toList ++
          (attrs ++ '>' :: (b ++ "<br>".toList))))) false =
        [a ++ ' ' :: b]) := by
  have collapse : ∀ a attrs b : Str, (∀ c ∈ a, c ≠ '<') →
      (∀ c ∈ attrs, c ≠ '>') →
      subst tryFontPair
        (a ++ ("</font>".toList ++ ("<font".toList ++ (attrs ++ '>' :: b)))) =
        a ++ ' ' :: subst tryFontPair b := by
    intro a attrs b ha hat
    rw [subst_append_of_no_lt tryFontPair
      (fun c s hc => tryFontPair_head hc) a _ ha]
    rw [show "</font>".toList ++ ("<font".toList ++ (attrs ++ '>' :: b)) =
      '<' :: ("/font>".toList ++ ("<font".toList ++ (attrs ++ '>' :: b)))
      from rfl]
    rw [subst_cons_some tryFontPair tryFontPair_consuming '<'
      ("/font>".toList ++ ("<font".toList ++ (attrs ++ '>' :: b)))
      " ".toList b (tryFontPair_match attrs b hat)]
    rfl
  refine ⟨collapse, ?_⟩
  intro a attrs b ha hb hat hane hstrip hnbrk
  have ha1 : ∀ c ∈ a, c ≠ '<' := fun c hc => (ha c hc).1
  have hb1 : ∀ c ∈ b, c ≠ '<' := fun c hc => (hb c hc).1
  have hat1 : ∀ c ∈ attrs, c ≠ '<' := fun c hc => (hat c hc).1
  have hat2 : ∀ c ∈ attrs, c ≠ '>' := fun c hc => (hat c hc).2
  have hXlt : ∀ c ∈ a ++ ' ' :: b, c ≠ '<' := by
    intro c hc
    rcases List.mem_append.mp hc with hc | hc
    · exact ha1 c hc
    · rcases List.mem_cons.mp hc with rfl | hc
      · decide
      · exact hb1 c hc
  have hXamp : ∀ c ∈ a ++ ' ' :: b, c ≠ '&' := by
    intro c hc
    rcases List.mem_append.mp hc with hc | hc
    · exact (ha c hc).2
    · rcases List.mem_cons.mp hc with rfl | hc
      · decide
      · exact (hb c hc).2
  have hXne : a ++ ' ' :: b ≠ [] := by
    cases a with
    | nil => exact absurd rfl hane
    | cons c t => simp
  have s1 := chorusFont_template_id a attrs b ha1 hb1 hat1 hat2
  have s2 : subst tryFontPair
      (a ++ ("</font>".toList ++ ("<font".toList ++
        (attrs ++ '>' :: (b ++ "<br>".toList))))) =
      a ++ ' ' :: (b ++ "<br>".toList) := by
    rw [collapse a attrs (b ++ "<br>".toList) ha1 hat2]
    rw [subst_eq_self_of_no_match tryFontPair _
      (no_match_suffix_b_br tryFontPair
        (fun c s hc => tryFontPair_head hc) b hb1 (by decide))]
  have s3 := subst_eq_self_text_br tryFontAny
    (fun c s hc => tryFontAny_head hc) a b ha1 hb1 (by decide)
  have s4 := subst_eq_self_text_br tryPBreak
    (fun c s hc => tryPBreak_head hc) a b ha1 hb1 (by decide)
  have s5 := subst_eq_self_text_br tryPTag
    (fun c s hc => tryPTag_head hc) a b ha1 hb1 (by decide)
  have s6 : splitRe tryBr (a ++ ' ' :: (b ++ "<br>".toList)) =
      [a ++ ' ' :: b, []] := by
    have hassoc : a ++ ' ' :: (b ++ "<br>".toList) =
        (a ++ ' ' :: b) ++ "<br>".toList := by simp
    rw [hassoc]
    rw [splitRe_append_of_no_match tryBr (a ++ ' ' :: b) "<br>".toList ?_]
    · rw [show splitRe tryBr "<br>".toList = [[], []] from by decide]
      simp
    · intro u₂ hne hsuf
      cases u₂ with
      | nil => exact absurd rfl hne
      | cons c t =>
        exact tryBr_head (hXlt c (hsuf.subset (by simp)))
  have s7 : firstPass [a ++ ' ' :: b, []] =
      [a ++ ' ' :: b, sectionBreakS] := by
    have htag : subst tryTag (a ++ ' ' :: b) = a ++ ' ' :: b :=
      subst_eq_self_of_no_lt tryTag (fun c s hc => tryTag_head hc) _ hXlt
    have hun : pyUnescape (a ++ ' ' :: b) = a ++ ' ' :: b :=
      pyUnescape_no_amp _ hXamp
    unfold firstPass
    simp only [List.foldl_cons, List.foldl_nil]
    unfold cleanSegmentsStep
    simp [htag, hun, hstrip, hXne]
    intro _ h2
    exact absurd rfl h2
  have s8 : joinPass [a ++ ' ' :: b, sectionBreakS] =
      [a ++ ' ' :: b, sectionBreakS] := by
    rw [joinPass_cons _ _ hnbrk]
    simp only [absorb,
      show continuesLine sectionBreakS = false from by decide,
      Bool.false_eq_true, if_false]
    rw [joinPass_cons_break, joinPass_nil]
  have s9 : dropTrailingBreaks [a ++ ' ' :: b, sectionBreakS] =
      [a ++ ' ' :: b] := by
    have hbeq : (a ++ ' ' :: b == sectionBreakS) = false :=
      beq_eq_false_iff_ne.mpr hnbrk
    unfold dropTrailingBreaks
    simp only [List.reverse_cons, List.reverse_nil, List.nil_append,
      List.cons_append, List.dropWhile]
    simp [hbeq]
  show dropTrailingBreaks (joinPass (firstPass (splitRe tryBr
    (subst tryPTag (subst tryPBreak (subst tryFontAny (subst tryFontPair
      (subst tryChorusFont
        (a ++ ("</font>".toList ++ ("<font".toList ++
          (attrs ++ '>' :: (b ++ "<br>".toList))))))))))))) =
    [a ++ ' ' :: b]
  rw [s1, s2, s3, s4, s5, s6, s7, s8, s9]

/-- Witness for `C5_font_collapse` at concrete texts and attributes. -/
theorem C5_font_collapse_witness :
    (subst tryFontPair
      ("Love".toList ++ ("</font>".toList ++ ("<font".toList ++
        (" color=\"#AF0000\"".toList ++ '>' :: "indeed".toList)))) =
      "Love".toList ++ ' ' :: subst tryFontPair "indeed".toList) ∧
    extractLines
      ("Love".toList ++ ("</font>".toList ++ ("<font".toList ++
        (" color=\"#AF0000\"".toList ++ '>' ::
          ("indeed".toList ++ "<br>".toList))))) false =
      ["Love".toList ++ ' ' :: "indeed".toList] :=
  ⟨C5_font_collapse.1 "Love".toList " color=\"#AF0000\"".toList
      "indeed".toList (by decide) (by decide),
   C5_font_collapse.2 "Love".toList " color=\"#AF0000\"".toList
      "indeed".toList (by decide) (by decide) (by decide) (by decide)
      (by decide) (by decide)⟩

/-! ### Claim C8: support lemmas -/

theorem lazyFind_some_decomp {k : Str → Option Str} :
    ∀ {s r : Str}, lazyFind k s = some r →
      ∃ g s₂, s = g ++ s₂ ∧ k s₂ = some r := by
  intro s
  induction s with
  | nil =>
    intro r h
    exact ⟨[], [], by simp, by simpa [lazyFind] using h⟩
  | cons c cs ih =>
    intro r h
    unfold lazyFind at h
    cases hk : k (c :: cs) with
    | some r2 =>
      rw [hk] at h
      have hr : r2 = r := Option.some.inj h
      exact ⟨[], c :: cs, by simp, by rw [hk, hr]⟩
    | none =>
      rw [hk] at h
      obtain ⟨g, s₂, heq, hks⟩ := ih h
      exact ⟨c :: g, s₂, by simp [heq], hks⟩

theorem lazyGroup_isSome_of_exists {k : Str → Option Str} :
    ∀ s : Str, (∃ g s₂, s = g ++ s₂ ∧ (k s₂).isSome) →
      (lazyGroup k s).isSome := by
  intro s
  induction s with
  | nil =>
    rintro ⟨g, s₂, heq, hk⟩
    obtain ⟨rfl, rfl⟩ := List.append_eq_nil.mp heq.symm
    simp only [lazyGroup]
    cases hk2 : k [] with
    | none => rw [hk2] at hk; simp at hk
    | some r => simp
  | cons c cs ih =>
    rintro ⟨g, s₂, heq, hk⟩
    simp only [lazyGroup]
    cases hkc : k (c :: cs) with
    | some r => simp
    | none =>
      have hex : ∃ g s₂, cs = g ++ s₂ ∧ (k s₂).isSome := by
        cases g with
        | nil =>
          simp only [List.nil_append] at heq
          subst heq
          rw [hkc] at hk
          simp at hk
        | cons c2 g2 =>
          simp only [List.cons_append, List.cons.injEq] at heq
          obtain ⟨rfl, heq2⟩ := heq
          exact ⟨g2, s₂, heq2, hk⟩
      have hih := ih hex
      cases hlg : lazyGroup k cs with
      | none => rw [hlg] at hih; simp at hih
      | some p => simp [hlg]

theorem reSearch_isSome_of_exists {β} (m : Str → Option β) :
    ∀ s : Str, (∃ u v, s = u ++ v ∧ (m v).isSome) →
      (reSearch m s).isSome := by
  intro s
  induction s with
  | nil =>
    rintro ⟨u, v, heq, hm⟩
    obtain ⟨rfl, rfl⟩ := List.append_eq_nil.mp heq.symm
    simpa [reSearch] using hm
  | cons c cs ih =>
    rintro ⟨u, v, heq, hm⟩
    simp only [reSearch]
    cases hmc : m (c :: cs) with
    | some b => simp
    | none =>
      apply ih
      cases u with
      | nil =>
        simp only [List.nil_append] at heq
        subst heq
        rw [hmc] at hm
        simp at hm
      | cons c2 u2 =>
        simp only [List.cons_append, List.cons.injEq] at heq
        obtain ⟨rfl, heq2⟩ := heq
        exact ⟨u2, v, heq2, hm⟩

theorem matchTdOpen_decomp {lit s r2 : Str} (h : matchTdOpen lit s = some r2) :
    ∃ a, s = lit ++ (a ++ '>' :: r2) ∧ ∀ c ∈ a, c ≠ '>' := by
  unfold matchTdOpen at h
  split at h
  · simp at h
  · next r1 hm1 =>
    split at h
    · next rem heq =>
      have hrem : rem = r2 := Option.some.inj h
      subst hrem
      obtain ⟨hdec, hall⟩ := dropWhile_ne_decomp '>' r1 rem heq
      refine ⟨r1.takeWhile (· ≠ '>'), ?_, hall⟩
      rw [matchLit_eq_some hm1]
      congr 1
    · simp at h

theorem tableTail2_decomp {s r : Str} (h : tableTail2 s = some r) :
    ∃ ws3, s = "</td>".toList ++ (ws3 ++ ("</tr>".toList ++ r)) := by
  unfold tableTail2 at h
  split at h
  · simp at h
  · next u hm =>
    refine ⟨u.takeWhile pyIsSpace, ?_⟩
    rw [matchLit_eq_some hm]
    congr 1
    conv_lhs => rw [← List.takeWhile_append_dropWhile (p := pyIsSpace) (l := u)]
    congr 1
    exact matchLit_eq_some h

theorem tableTail1_decomp {s r : Str} (h : tableTail1 s = some r) :
    ∃ ws2 a2 g2 ws3,
      s = "</td>".toList ++ (ws2 ++ (td45 ++ (a2 ++ '>' ::
        (g2 ++ ("</td>".toList ++ (ws3 ++ ("</tr>".toList ++ r))))))) ∧
      ∀ c ∈ a2, c ≠ '>' := by
  unfold tableTail1 at h
  split at h
  · simp at h
  · next u hm =>
    split at h
    · simp at h
    · next r2 hm2 =>
      obtain ⟨a2, hdec2, ha2⟩ := matchTdOpen_decomp hm2
      obtain ⟨g2, s3, hdec3, ht2⟩ := lazyFind_some_decomp h
      obtain ⟨ws3, hdec4⟩ := tableTail2_decomp ht2
      refine ⟨u.takeWhile pyIsSpace, a2, g2, ws3, ?_, ha2⟩
      rw [matchLit_eq_some hm]
      congr 1
      conv_lhs => rw [← List.takeWhile_append_dropWhile (p := pyIsSpace) (l := u)]
      congr 1
      simp only [skipWs] at hdec2
      rw [hdec2]
      congr 1
      congr 1
      rw [hdec3, hdec4]

theorem tableMatchAt_decomp {s r : Str} (h : tableMatchAt s = some r) :
    ∃ ws1 a1 g1 ws2 a2 g2 ws3,
      s = "<tr>".toList ++ (ws1 ++ (td53 ++ (a1 ++ '>' ::
        (g1 ++ ("</td>".toList ++ (ws2 ++ (td45 ++ (a2 ++ '>' ::
          (g2 ++ ("</td>".toList ++ (ws3 ++ ("</tr>".toList ++ r)))))))))))) ∧
      (∀ c ∈ a1, c ≠ '>') ∧ (∀ c ∈ a2, c ≠ '>') := by
  unfold tableMatchAt at h
  split at h
  · simp at h
  · next r0 hm0 =>
    split at h
    · simp at h
    · next r2 hm2 =>
      obtain ⟨a1, hdec1, ha1⟩ := matchTdOpen_decomp hm2
      obtain ⟨g1, s2, hdec2, ht1⟩ := lazyFind_some_decomp h
      obtain ⟨ws2, a2, g2, ws3, hdec3, ha2⟩ := tableTail1_decomp ht1
      refine ⟨r0.takeWhile pyIsSpace, a1, g1, ws2, a2, g2, ws3, ?_, ha1, ha2⟩
      rw [matchLit_eq_some hm0]
      congr 1
      conv_lhs => rw [← List.takeWhile_append_dropWhile (p := pyIsSpace) (l := r0)]
      congr 1
      simp only [skipWs] at hdec1
      rw [hdec1]
      congr 1
      congr 1
      rw [hdec2, hdec3]

theorem take_prefix_of_append (U r : Str) :
    (U ++ r).take ((U ++ r).length - r.length) = U := by
  have hl : (U ++ r).length - r.length = U.length := by simp
  rw [hl]
  exact List.take_left U r

theorem tableSearch_some :
    ∀ {content t : Str}, tableSearch content = some t →
      ∃ s r, tableMatchAt s = some r ∧ t = s.take (s.length - r.length) := by
  intro content
  induction content with
  | nil =>
    intro t h
    have hnone : tableMatchAt [] = none := by
      unfold tableMatchAt
      rw [matchLit_nil_of_ne (by decide : "<tr>".toList ≠ [])]
    unfold tableSearch at h
    rw [hnone] at h
    exact absurd h (by simp)
  | cons c cs ih =>
    intro t h
    unfold tableSearch at h
    cases htm : tableMatchAt (c :: cs) with
    | some r =>
      rw [htm] at h
      exact ⟨c :: cs, r, htm, (Option.some.inj h).symm⟩
    | none =>
      rw [htm] at h
      exact ih h

theorem match53At_isSome (a g rest : Str) (ha : ∀ c ∈ a, c ≠ '>') :
    (match53At (td53 ++ (a ++ '>' :: (g ++ ("</td>".toList ++ rest))))).isSome
      := by
  unfold match53At matchTdOpen
  rw [matchLit_append]
  simp only []
  rw [dropWhile_ne_append '>' a _ ha]
  simp only []
  have hlg := lazyGroup_isSome_of_exists (k := matchLit "</td>".toList)
    (g ++ ("</td>".toList ++ rest))
    ⟨g, "</td>".toList ++ rest, rfl, by rw [matchLit_append]; simp⟩
  cases hl : lazyGroup (matchLit "</td>".toList) (g ++ ("</td>".toList ++ rest)) with
  | none => rw [hl] at hlg; simp at hlg
  | some p => simp [hl]

theorem match45At_isSome (a g rest : Str) (ha : ∀ c ∈ a, c ≠ '>') :
    (match45At (td45 ++ (a ++ '>' :: (g ++ ("</td>".toList ++ rest))))).isSome
      := by
  unfold match45At matchTdOpen
  rw [matchLit_append]
  simp only []
  rw [dropWhile_ne_append '>' a _ ha]
  simp only []
  have hlg := lazyGroup_isSome_of_exists (k := matchLit "</td>".toList)
    (g ++ ("</td>".toList ++ rest))
    ⟨g, "</td>".toList ++ rest, rfl, by rw [matchLit_append]; simp⟩
  cases hl : lazyGroup (matchLit "</td>".toList) (g ++ ("</td>".toList ++ rest)) with
  | none => rw [hl] at hlg; simp at hlg
  | some p => simp [hl]

theorem tableSearch_columns {content t : Str}
    (h : tableSearch content = some t) :
    (reSearch match53At t).isSome ∧ (reSearch match45At t).isSome := by
  obtain ⟨s, r, hm, rfl⟩ := tableSearch_some h
  obtain ⟨ws1, a1, g1, ws2, a2, g2, ws3, hs, ha1, ha2⟩ := tableMatchAt_decomp hm
  have hsU : s = ("<tr>".toList ++ (ws1 ++ (td53 ++ (a1 ++ '>' ::
      (g1 ++ ("</td>".toList ++ (ws2 ++ (td45 ++ (a2 ++ '>' ::
        (g2 ++ ("</td>".toList ++ (ws3 ++ "</tr>".toList)))))))))))) ++ r := by
    rw [hs]
    simp [List.append_assoc]
  rw [hsU, take_prefix_of_append]
  constructor
  · apply reSearch_isSome_of_exists
    refine ⟨"<tr>".toList ++ ws1,
      td53 ++ (a1 ++ '>' :: (g1 ++ ("</td>".toList ++
        (ws2 ++ (td45 ++ (a2 ++ '>' :: (g2 ++ ("</td>".toList ++
          (ws3 ++ "</tr>".toList))))))))), ?_, ?_⟩
    · simp [List.append_assoc]
    · exact match53At_isSome a1 g1 _ ha1
  · apply reSearch_isSome_of_exists
    refine ⟨"<tr>".toList ++ (ws1 ++ (td53 ++ (a1 ++ '>' ::
        (g1 ++ ("</td>".toList ++ ws2))))),
      td45 ++ (a2 ++ '>' :: (g2 ++ ("</td>".toList ++
        (ws3 ++ "</tr>".toList)))), ?_, ?_⟩
    · simp [List.append_assoc]
    · exact match45At_isSome a2 g2 _ ha2

theorem validateLineStructure_mono (sd : SongData) (r : SongValidationResult)
    (iss : ValidationIssue) (h : iss ∈ r.validation_issues) :
    iss ∈ (validateLineStructure sd r).validation_issues := by
  unfold validateLineStructure
  simp only []
  split_ifs <;> simp [h]

theorem validateContentQuality_mono (sd : SongData) (r : SongValidationResult)
    (iss : ValidationIssue) (h : iss ∈ r.validation_issues) :
    iss ∈ (validateContentQuality sd r).validation_issues := by
  unfold validateContentQuality
  simp only []
  split_ifs <;> simp [h]

theorem validateAttribution_no_composer (sd : SongData)
    (r : SongValidationResult) (hc : (pyStrip sd.composer).isEmpty = true) :
    ∃ iss ∈ (validateAttribution sd r).validation_issues,
      iss.issue_type = IssueType.no_composer := by
  unfold validateAttribution
  simp only [hc, if_true]
  split_ifs <;>
    exact ⟨{ issue_type := .no_composer, severity := .high,
             description := "No composer credited for this song".toList,
             location := "attribution section".toList }, by simp, rfl⟩

theorem validateLineStructure_mismatch (sd : SongData)
    (r : SongValidationResult)
    (hne : sd.hawaiian_lines.length ≠ sd.english_lines.length) :
    ∃ iss ∈ (validateLineStructure sd r).validation_issues,
      iss.issue_type = IssueType.line_count_mismatch := by
  unfold validateLineStructure
  simp only [hne, if_true]
  split_ifs <;>
    exact ⟨{ issue_type := .line_count_mismatch, severity := .high,
             description := "Hawaiian lines (".toList
               ++ natStr sd.hawaiian_lines.length
               ++ ") don".toList ++ [apos]
               ++ "t match English lines (".toList
               ++ natStr sd.english_lines.length ++ ")".toList,
             location := "lyrics section".toList,
             suggested_action :=
               some "Manual review required to align translations".toList },
           by simp, rfl⟩

theorem validateContentQuality_stray (sd : SongData)
    (r : SongValidationResult) (hs : sd.stray_text ≠ []) :
    ∃ iss ∈ (validateContentQuality sd r).validation_issues,
      iss.issue_type = IssueType.unidentifiable_text := by
  have hs2 : sd.stray_text.isEmpty = false := by
    cases hh : sd.stray_text with
    | nil => exact absurd hh hs
    | cons a b => simp
  unfold validateContentQuality
  simp only [hs2, Bool.not_false, if_true]
  split_ifs <;>
    exact ⟨{ issue_type := .unidentifiable_text, severity := .medium,
             description := "Found ".toList ++ natStr sd.stray_text.length
               ++ " segments of unidentifiable text".toList,
             location := "various".toList,
             raw_content := some (straySnippet sd.stray_text),
             suggested_action :=
               some "Manual review to categorize or discard".toList },
           by simp, rfl⟩

theorem parseContent_error_iff (content filePath : Str) :
    (∃ e, parseContent content filePath = Except.error e)
      ↔ tableSearch content = none := by
  constructor
  · rintro ⟨e, he⟩
    by_contra hne
    cases ht : tableSearch content with
    | none => exact hne ht
    | some t =>
      obtain ⟨h53, h45⟩ := tableSearch_columns ht
      obtain ⟨hc, h5⟩ := Option.isSome_iff_exists.mp h53
      obtain ⟨ec, h4⟩ := Option.isSome_iff_exists.mp h45
      unfold parseContent at he
      rw [ht] at he
      simp [h5, h4] at he
  · intro h
    refine ⟨"Could not find main lyrics table in HTML".toList, ?_⟩
    unfold parseContent
    simp only []
    rw [h]

theorem validateSong_surfaces (sd : SongData) :
    ((pyStrip sd.composer).isEmpty = true →
        ∃ iss ∈ (validateSong sd).validation_issues,
          iss.issue_type = IssueType.no_composer)
  ∧ (sd.hawaiian_lines.length ≠ sd.english_lines.length →
        ∃ iss ∈ (validateSong sd).validation_issues,
          iss.issue_type = IssueType.line_count_mismatch)
  ∧ (sd.stray_text ≠ [] →
        ∃ iss ∈ (validateSong sd).validation_issues,
          iss.issue_type = IssueType.unidentifiable_text) := by
  unfold validateSong
  simp only []
  refine ⟨fun hc => ?_, fun hne => ?_, fun hs => ?_⟩
  · obtain ⟨iss, hm, ht⟩ := validateAttribution_no_composer sd _ hc
    exact ⟨iss, validateContentQuality_mono _ _ _
      (validateLineStructure_mono _ _ _ hm), ht⟩
  · obtain ⟨iss, hm, ht⟩ := validateLineStructure_mismatch sd
      (validateAttribution sd _) hne
    exact ⟨iss, validateContentQuality_mono _ _ _ hm, ht⟩
  · obtain ⟨iss, hm, ht⟩ := validateContentQuality_stray sd
      (validateLineStructure sd (validateAttribution sd _)) hs
    exact ⟨iss, hm, ht⟩

/-- C8: `parse_file` raises (modelled as `Except.error`) exactly when the
two-column lyrics table regex finds no match in the source markup — in
particular the later "Could not extract both Hawaiian and English columns"
error is unreachable once the table matched, because the table regex itself
requires both `width="53%"` and `width="45%"` cells.  Recoverable
data-quality defects are never errors: `validate_song` is a total function
that surfaces a missing composer, a Hawaiian/English line-count mismatch and
stray text as appended `ValidationIssue`s. -/
theorem C8_error_handling :
    (∀ content filePath : Str,
        (∃ e, parseContent content filePath = Except.error e)
          ↔ tableSearch content = none)
  ∧ (∀ sd : SongData,
        ((pyStrip sd.composer).isEmpty = true →
            ∃ iss ∈ (validateSong sd).validation_issues,
              iss.issue_type = IssueType.no_composer)
        ∧ (sd.hawaiian_lines.length ≠ sd.english_lines.length →
            ∃ iss ∈ (validateSong sd).validation_issues,
              iss.issue_type = IssueType.line_count_mismatch)
        ∧ (sd.stray_text ≠ [] →
            ∃ iss ∈ (validateSong sd).validation_issues,
              iss.issue_type = IssueType.unidentifiable_text)) :=
  ⟨parseContent_error_iff, validateSong_surfaces⟩

/-- A song record with a blank composer, mismatched line counts and stray
text, exercising every defect branch of `validate_song` at once. -/
def c8Song : SongData :=
  { id := "s1".toList
    title := "Test".toList
    source_file := "t.html".toList
    composer := "  ".toList
    lyricist := []
    translator := "Tr".toList
    hawaiian_lines := ["Aloha".toList, "E ala e".toList]
    english_lines := ["Hello".toList]
    has_verse_structure := true
    has_english_translation := true
    stray_text := ["leftover".toList] }

theorem C8_error_handling_witness :
    (∃ e, parseContent "no table".toList [] = Except.error e)
  ∧ (∃ iss ∈ (validateSong c8Song).validation_issues,
        iss.issue_type = IssueType.no_composer)
  ∧ (∃ iss ∈ (validateSong c8Song).validation_issues,
        iss.issue_type = IssueType.line_count_mismatch)
  ∧ (∃ iss ∈ (validateSong c8Song).validation_issues,
        iss.issue_type = IssueType.unidentifiable_text) :=
  ⟨(C8_error_handling.1 "no table".toList []).mpr (by decide),
   (C8_error_handling.2 c8Song).1 (by decide),
   (C8_error_handling.2 c8Song).2.1 (by decide),
   (C8_error_handling.2 c8Song).2.2 (by decide)⟩
